import Mathlib

/-!
The I2C bus transaction engine (hw/i2c/core.c) and its fault-injection observer
(mydebug.cpp).

A shallow embedding of the bus operations of `hw/i2c/core.c` and of the part of
`mydebug.cpp` they call into, followed by theorems about them.

Modelling conventions.

* An `I2CSlave *` is a value of `I2CSlave`: the identity of the device object together
  with its `address` field.  `I2C_SLAVE_GET_CLASS` is a function from devices to their
  class record, passed to every operation as `cls`.
* The callbacks of a device class (`event`, `send`, `recv`, `match_and_add`) are opaque
  function pointers in the source.  Here each is a function that also receives the
  `History`: the list of all callback invocations made so far, oldest first.  A return
  value may therefore depend on everything the devices have seen, which stands for
  their private mutable state.  Every invocation is appended to `Machine.trace`.
* `uint8_t` values are `Nat` (the callers pass bytes), `int` values are `Int`.
* An out-of-range `std::vector::operator[]` and a failed `unordered_map::at` have no
  defined result; the observer operations return `none` there.
* `trace_i2c_*` and `AddLogEntry` only write to the trace backend and to the on-screen
  log; they touch neither the bus, the devices nor the injection state and are left out.
-/

namespace I2C

/-- The macro `I2C_BROADCAST` of core.c. -/
def I2C_BROADCAST : Nat := 0

/-- The events of `enum i2c_event` that core.c delivers. -/
inductive i2c_event where
  | I2C_START_RECV
  | I2C_START_SEND
  | I2C_FINISH
  | I2C_NACK
deriving DecidableEq, Repr

/-- A peripheral: `qdev` is the identity of the device object, `address` its bus address. -/
structure I2CSlave where
  qdev : Nat
  address : Nat
deriving DecidableEq, Repr

/-- One invocation of a device-class callback. -/
inductive Call where
  | match_and_add (candidate : I2CSlave) (address : Nat) (broadcast : Bool)
  | event (s : I2CSlave) (e : i2c_event)
  | send (s : I2CSlave) (data : Nat)
  | recv (s : I2CSlave)
deriving DecidableEq, Repr

/-- All callback invocations so far, oldest first. -/
abbrev History := List Call

/-- The class record of a peripheral (`I2CSlaveClass`): `event`, `send` and `recv` may be
null (`none`); `match_and_add` receives the list of matched devices and returns its
verdict together with the updated list. -/
structure I2CSlaveClass where
  event : Option (History → I2CSlave → i2c_event → Int)
  send : Option (History → I2CSlave → Nat → Int)
  recv : Option (History → I2CSlave → Nat)
  match_and_add : History → I2CSlave → Nat → Bool → List I2CSlave → Bool × List I2CSlave

/-- The bus (`I2CBus`): `children` is `qbus.children` in list order, `current_devs` the
list of `I2CNode`s, head first. -/
structure I2CBus where
  children : List I2CSlave
  current_devs : List I2CSlave
  broadcast : Bool
  saved_address : Nat
  serial_ : Int
  has_serial_ : Bool
deriving DecidableEq, Repr

/-- The per-bus counters `I2CBusStateView::I2CBusState` of mydebug.hpp. -/
structure I2CBusState where
  read_count : Int
  write_count : Int
  tx_count : Int
deriving DecidableEq, Repr

/-- The observer `I2CBusStateView` of mydebug.hpp (the fields the bus callbacks use). -/
structure I2CBusStateView where
  hovered_i2c_idx : Int
  pending_i2c_nacks : List Int
  tx_count_last_interval : List Int
  i2c2idx_ : List (String × Int)
  i2c2bus_ : List (String × Nat)
  states_ : List I2CBusState
deriving DecidableEq, Repr

/-- The whole state the bus operations act on: the bus, the callback trace, and the
globals of mydebug.cpp. -/
structure Machine where
  bus : I2CBus
  trace : History
  g_i2cbusstateview : I2CBusStateView
  g_in_flight_i2c_txns : List String
  g_inject_flag : Bool
  g_i2cbus_serial : Int
deriving DecidableEq

/-! ## mydebug.cpp -/

/-- Assignment `m[key] = value` on an `unordered_map`. -/
def mapAssign {β : Type} (key : String) (value : β) : List (String × β) → List (String × β)
  | [] => [(key, value)]
  | (k, v) :: rest => if k = key then (k, value) :: rest else (k, v) :: mapAssign key value rest

/-- The lookup `m.at(key)` on an `unordered_map`: `none` when the key is absent. -/
def mapAt {β : Type} (key : String) : List (String × β) → Option β
  | [] => none
  | (k, v) :: rest => if k = key then some v else mapAt key rest

/-- The access `v[idx]` on a `std::vector` with an `int` index: `none` out of range. -/
def vecGet {β : Type} (v : List β) (idx : Int) : Option β :=
  if 0 ≤ idx then v.get? idx.toNat else none

/-- The store `v[idx] = x` on a `std::vector` with an `int` index: `none` out of range. -/
def vecSet {β : Type} (v : List β) (idx : Int) (x : β) : Option (List β) :=
  if 0 ≤ idx ∧ idx.toNat < v.length then some (v.set idx.toNat x) else none

/-- The constructor `I2CBusStateView::I2CBusStateView`. -/
def I2CBusStateView.new : I2CBusStateView :=
  { hovered_i2c_idx := -999
    pending_i2c_nacks := List.replicate 256 0
    tx_count_last_interval := []
    i2c2idx_ := []
    i2c2bus_ := []
    states_ := [] }

/-- The method `I2CBusStateView::AddI2CBus`. -/
def I2CBusStateView.AddI2CBus (v : I2CBusStateView) (desc : String) (obj : Nat) (_i2c : Int) :
    I2CBusStateView :=
  let bs : I2CBusState := { read_count := 0, write_count := 0, tx_count := 0 }
  let states1 := v.states_ ++ [bs]
  { v with
    states_ := states1
    i2c2idx_ := mapAssign desc (Int.ofNat states1.length) v.i2c2idx_
    i2c2bus_ := mapAssign desc obj v.i2c2bus_
    tx_count_last_interval := v.tx_count_last_interval ++ [0] }

/-- The method `I2CBusStateView::OnI2CTransactionStart`, called with a non-null
`is_inject` pointer (as core.c does); returns the view and the value left in `*is_inject`. -/
def I2CBusStateView.OnI2CTransactionStart (v : I2CBusStateView) (desc : String)
    (is_inject : Bool) : Option (I2CBusStateView × Bool) :=
  match mapAt desc v.i2c2idx_ with
  | none => none
  | some idx =>
    match vecGet v.states_ idx with
    | none => none
    | some st =>
      match vecSet v.states_ idx { st with tx_count := st.tx_count + 1 } with
      | none => none
      | some states1 =>
        let v1 := { v with states_ := states1 }
        match vecGet v1.pending_i2c_nacks idx with
        | none => none
        | some p =>
          if p ≠ (0 : Int) then
            match vecSet v1.pending_i2c_nacks idx (0 : Int) with
            | none => none
            | some pend1 => some ({ v1 with pending_i2c_nacks := pend1 }, true)
          else some (v1, is_inject)

/-- The function `AddI2CBus` of mydebug.cpp. -/
def AddI2CBus (desc : String) (obj : Nat) (i2cid : Int) (m : Machine) : Machine :=
  { m with g_i2cbusstateview := m.g_i2cbusstateview.AddI2CBus desc obj i2cid }

/-- The function `OnI2CTransactionStart` of mydebug.cpp. -/
def OnI2CTransactionStart (desc : String) (is_inject : Bool) (m : Machine) :
    Option (Machine × Bool) :=
  let inflight := if desc ∈ m.g_in_flight_i2c_txns then m.g_in_flight_i2c_txns
    else desc :: m.g_in_flight_i2c_txns
  match m.g_i2cbusstateview.OnI2CTransactionStart desc is_inject with
  | none => none
  | some (v1, inj) =>
    some ({ m with
            g_in_flight_i2c_txns := inflight
            g_i2cbusstateview := v1
            g_inject_flag := if inj then true else m.g_inject_flag }, inj)

/-- The function `OnI2CTransactionEnd` of mydebug.cpp. -/
def OnI2CTransactionEnd (_desc : String) (m : Machine) : Machine :=
  { m with g_in_flight_i2c_txns := [], g_inject_flag := false }

/-- The function `GetI2CSerial` of mydebug.cpp: the value returned and the new state. -/
def GetI2CSerial (m : Machine) : Int × Machine :=
  (m.g_i2cbus_serial, { m with g_i2cbus_serial := m.g_i2cbus_serial + 1 })

/-- The bus name `sprintf(busname, "i2c_bus_%d", bus->serial_)`. -/
def busname (bus : I2CBus) : String :=
  "i2c_bus_" ++ toString bus.serial_

/-! ## hw/i2c/core.c -/

/-- The default match predicate `i2c_slave_match`. -/
def i2c_slave_match (candidate : I2CSlave) (address : Nat) (broadcast : Bool)
    (current_devs : List I2CSlave) : Bool × List I2CSlave :=
  if candidate.address = address ∨ broadcast = true then (true, candidate :: current_devs)
  else (false, current_devs)

/-- The loop of `i2c_scan_bus` over the remaining children. -/
def i2c_scan_bus_loop (cls : I2CSlave → I2CSlaveClass) (address : Nat) (broadcast : Bool) :
    List I2CSlave → List I2CSlave → History → Bool × List I2CSlave × History
  | [], current_devs, tr => (broadcast, current_devs, tr)
  | candidate :: kids, current_devs, tr =>
    let r := (cls candidate).match_and_add tr candidate address broadcast current_devs
    let tr1 := tr ++ [Call.match_and_add candidate address broadcast]
    if r.1 = true ∧ broadcast = false then (true, r.2, tr1)
    else i2c_scan_bus_loop cls address broadcast kids r.2 tr1

/-- The function `i2c_scan_bus`: its result, the updated `current_devs` and the trace. -/
def i2c_scan_bus (cls : I2CSlave → I2CSlaveClass) (bus : I2CBus) (address : Nat)
    (broadcast : Bool) (current_devs : List I2CSlave) (tr : History) :
    Bool × List I2CSlave × History :=
  i2c_scan_bus_loop cls address broadcast bus.children current_devs tr

/-- The callbacks of the loop shared by `i2c_end_transfer` and `i2c_nack`: event `e` is
delivered to every listed device whose class has an event handler; the handler's return
value is discarded. -/
def deliver (cls : I2CSlave → I2CSlaveClass) (e : i2c_event) : List I2CSlave → History → History
  | [], tr => tr
  | s :: rest, tr =>
    match (cls s).event with
    | some _ => deliver cls e rest (tr ++ [Call.event s e])
    | none => deliver cls e rest tr

/-- The function `i2c_end_transfer`. -/
def i2c_end_transfer (cls : I2CSlave → I2CSlaveClass) (m : Machine) : Machine :=
  { m with
    trace := deliver cls i2c_event.I2C_FINISH m.bus.current_devs m.trace
    bus := { m.bus with current_devs := [], broadcast := false } }

/-- The function `i2c_nack`. -/
def i2c_nack (cls : I2CSlave → I2CSlaveClass) (m : Machine) : Machine :=
  if m.bus.current_devs.isEmpty then m
  else { m with trace := deliver cls i2c_event.I2C_NACK m.bus.current_devs m.trace }

/-- The `QLIST_FOREACH` loop of `i2c_do_start_transfer` over the remaining nodes:
`some rv` when the loop body returned `rv`, `none` when the loop ran to its end. -/
def i2c_do_start_transfer_loop (cls : I2CSlave → I2CSlaveClass) (name : String)
    (event : i2c_event) (is_inject bus_scanned : Bool) :
    List I2CSlave → Machine → Option Int × Machine
  | [], m => (none, m)
  | s :: rest, m =>
    match (cls s).event with
    | some handler =>
      if is_inject = true then (some 0, i2c_nack cls m)
      else
        let rv := handler m.trace s event
        let m1 := { m with trace := m.trace ++ [Call.event s event] }
        if rv ≠ 0 ∧ m1.bus.broadcast = false then
          let m2 := if bus_scanned = true then i2c_end_transfer cls m1 else m1
          (some rv, OnI2CTransactionEnd name m2)
        else i2c_do_start_transfer_loop cls name event is_inject bus_scanned rest m1
    | none => i2c_do_start_transfer_loop cls name event is_inject bus_scanned rest m

/-- The function `i2c_do_start_transfer`; `none` only when the observer call has no
defined result. -/
def i2c_do_start_transfer (cls : I2CSlave → I2CSlaveClass) (address : Nat)
    (event : i2c_event) (m : Machine) : Option (Int × Machine) :=
  match OnI2CTransactionStart (busname m.bus) false m with
  | none => none
  | some (m0, is_inject) =>
    let m1 := if address = I2C_BROADCAST then { m0 with bus := { m0.bus with broadcast := true } }
      else m0
    let scanned := m1.bus.current_devs.isEmpty
    let m2 := if scanned = true then
        let r := i2c_scan_bus cls m1.bus address m1.bus.broadcast m1.bus.current_devs m1.trace
        { m1 with bus := { m1.bus with current_devs := r.2.1 }, trace := r.2.2 }
      else m1
    if m2.bus.current_devs.isEmpty then some (1, m2)
    else
      match i2c_do_start_transfer_loop cls (busname m.bus) event is_inject scanned
          m2.bus.current_devs m2 with
      | (some rv, m3) => some (rv, m3)
      | (none, m3) =>
        if is_inject = true then some (0, i2c_nack cls m3)
        else some (0, OnI2CTransactionEnd (busname m.bus) m3)

/-- The function `i2c_start_transfer`. -/
def i2c_start_transfer (cls : I2CSlave → I2CSlaveClass) (address : Nat) (is_recv : Bool)
    (m : Machine) : Option (Int × Machine) :=
  i2c_do_start_transfer cls address
    (if is_recv = true then i2c_event.I2C_START_RECV else i2c_event.I2C_START_SEND) m

/-- The loop of `i2c_send`: `ret = ret || sc->send(s, data)` evaluates the call only
when `ret` is zero, and yields 0 or 1. -/
def i2c_send_loop (cls : I2CSlave → I2CSlaveClass) (data : Nat) :
    List I2CSlave → Int → History → Int × History
  | [], ret, tr => (ret, tr)
  | s :: rest, ret, tr =>
    match (cls s).send with
    | some f =>
      if ret ≠ 0 then i2c_send_loop cls data rest 1 tr
      else i2c_send_loop cls data rest (if f tr s data ≠ 0 then 1 else 0)
        (tr ++ [Call.send s data])
    | none => i2c_send_loop cls data rest (-1) tr

/-- The function `i2c_send`. -/
def i2c_send (cls : I2CSlave → I2CSlaveClass) (data : Nat) (m : Machine) : Int × Machine :=
  let r := i2c_send_loop cls data m.bus.current_devs 0 m.trace
  (if r.1 ≠ 0 then -1 else 0, { m with trace := r.2 })

/-- The function `i2c_recv`; the result is a `uint8_t`. -/
def i2c_recv (cls : I2CSlave → I2CSlaveClass) (m : Machine) : Nat × Machine :=
  match m.bus.current_devs with
  | [] => (0xff, m)
  | s :: _ =>
    if m.bus.broadcast = false then
      match (cls s).recv with
      | some f => (f m.trace s % 256, { m with trace := m.trace ++ [Call.recv s] })
      | none => (0xff, m)
    else (0xff, m)

/-- The initialisation of `i2c_slave_class_init`: the class uses `i2c_slave_match`. -/
def i2c_slave_class_init (sc : I2CSlaveClass) : I2CSlaveClass :=
  { sc with match_and_add := fun _ => i2c_slave_match }

/-- The conversion of an `int` value to `uint8_t`. -/
def toUInt8 (x : Int) : Nat :=
  (x % 256).toNat

/-- The function `i2c_bus_pre_save`: the value returned and the bus afterwards.  The
field `saved_address` is a `uint8_t` (`VMSTATE_UINT8`), so the assignment of -1 stores
`toUInt8 (-1)`; a device address is a `uint8_t` already and is stored as it is. -/
def i2c_bus_pre_save (bus : I2CBus) : Int × I2CBus :=
  let bus1 := { bus with saved_address := toUInt8 (-1) }
  match bus1.current_devs with
  | [] => (0, bus1)
  | s :: _ =>
    if bus1.broadcast = false then (0, { bus1 with saved_address := s.address })
    else (0, { bus1 with saved_address := I2C_BROADCAST })

/-- The function `i2c_slave_post_load` for device `dev`, acting on its parent bus: the
value returned and the bus afterwards. -/
def i2c_slave_post_load (dev : I2CSlave) (bus : I2CBus) : Int × I2CBus :=
  if bus.saved_address = dev.address ∨ bus.saved_address = I2C_BROADCAST then
    (0, { bus with current_devs := dev :: bus.current_devs })
  else (0, bus)

/-! ## Vocabulary of the statements -/

/-- The event callbacks made when event `e` goes to every listed device that has a handler. -/
def eventCalls (cls : I2CSlave → I2CSlaveClass) (e : i2c_event) (devs : List I2CSlave) :
    History :=
  (devs.filter (fun s => (cls s).event.isSome)).map (fun s => Call.event s e)

/-- The match callbacks made when every listed device is asked in turn. -/
def matchCalls (address : Nat) (broadcast : Bool) (devs : List I2CSlave) : History :=
  devs.map (fun c => Call.match_and_add c address broadcast)

/-- The event kind `i2c_start_transfer` passes on for a direction. -/
def startEvent (is_recv : Bool) : i2c_event :=
  if is_recv = true then i2c_event.I2C_START_RECV else i2c_event.I2C_START_SEND

/-- The send callbacks made when every listed device is sent `data`. -/
def sendCalls (data : Nat) (devs : List I2CSlave) : History :=
  devs.map (fun s => Call.send s data)

/-- Every listed device that has an event handler accepts event `e` (returns 0) at the
history at which the start loop reaches it, the loop starting at history `tr`. -/
def AllAccept (cls : I2CSlave → I2CSlaveClass) (e : i2c_event) (tr : History)
    (devs : List I2CSlave) : Prop :=
  ∀ p1 p p2 f, devs = p1 ++ p :: p2 → (cls p).event = some f →
    f (tr ++ eventCalls cls e p1) p e = 0

/-- Every listed device has the send capability and accepts byte `data` (returns 0) at
the history at which the send loop reaches it, the loop starting at history `tr`. -/
def AllTake (cls : I2CSlave → I2CSlaveClass) (data : Nat) (tr : History)
    (devs : List I2CSlave) : Prop :=
  ∀ p1 p p2, devs = p1 ++ p :: p2 →
    ∃ f, (cls p).send = some f ∧ f (tr ++ sendCalls data p1) p data = 0

/-- Device `s` does not take byte `data` at history `tr`: it lacks the send capability
or its send reports failure. -/
def Refuses (cls : I2CSlave → I2CSlaveClass) (data : Nat) (tr : History) (s : I2CSlave) :
    Prop :=
  (cls s).send = none ∨ ∃ f, (cls s).send = some f ∧ f tr s data ≠ 0

/-- Whether a callback is a query of the match predicate of device `P`. -/
def isMatchOf (P : I2CSlave) : Call → Bool
  | Call.match_and_add c _ _ => decide (c = P)
  | _ => false

/-- Whether a callback is an event callback. -/
def isEvent : Call → Bool
  | Call.event _ _ => true
  | _ => false

/-- The restore of a snapshot: `i2c_slave_post_load` runs for every listed device in
turn. -/
def postLoadAll : List I2CSlave → I2CBus → I2CBus
  | [], bus => bus
  | d :: rest, bus => postLoadAll rest (i2c_slave_post_load d bus).2

/-- Snapshot and restore of a bus: `saved_address` is computed by `i2c_bus_pre_save`,
then every attached device runs `i2c_slave_post_load` against it on a bus whose matched
list starts empty and whose broadcast flag is clear, as on a newly created bus. -/
def roundTrip (bus : I2CBus) : I2CBus :=
  postLoadAll bus.children
    { (i2c_bus_pre_save bus).2 with current_devs := [], broadcast := false }

/-- A call of one of the bus operations by the controller. -/
inductive Op where
  | start (address : Nat) (is_recv : Bool)
  | send (data : Nat)
  | recv
  | nack
  | end_transfer
deriving DecidableEq, Repr

/-- The machine after one bus operation; `none` only when the observer call of a start
has no defined result. -/
def step (cls : I2CSlave → I2CSlaveClass) : Op → Machine → Option Machine
  | Op.start address is_recv, m => (i2c_start_transfer cls address is_recv m).map Prod.snd
  | Op.send data, m => some (i2c_send cls data m).2
  | Op.recv, m => some (i2c_recv cls m).2
  | Op.nack, m => some (i2c_nack cls m)
  | Op.end_transfer, m => some (i2c_end_transfer cls m)

/-- The machine after a sequence of bus operations. -/
def run (cls : I2CSlave → I2CSlaveClass) : List Op → Machine → Option Machine
  | [], m => some m
  | op :: ops, m => (step cls op m).bind (run cls ops)

/-! ## A concrete bus: three peripherals at 0x10, 0x20 and 0x30 -/

/-- Peripheral at address 0x10. -/
def dev10 : I2CSlave := { qdev := 1, address := 0x10 }

/-- Peripheral at address 0x20. -/
def dev20 : I2CSlave := { qdev := 2, address := 0x20 }

/-- Peripheral at address 0x30. -/
def dev30 : I2CSlave := { qdev := 3, address := 0x30 }

/-- Classes of the concrete bus: default match predicate; the event handler of the
peripheral at 0x10 rejects a start-for-receive, every other event is accepted; the
peripheral at 0x20 rejects the byte 0xEE, every other byte is taken; a receive yields
the address plus one. -/
def demoCls (_s : I2CSlave) : I2CSlaveClass :=
  i2c_slave_class_init
    { event := some (fun _ d e =>
        if d.address = 0x10 ∧ e = i2c_event.I2C_START_RECV then 1 else 0)
      send := some (fun _ d data => if d.address = 0x20 ∧ data = 0xEE then 1 else 0)
      recv := some (fun _ d => d.address + 1)
      match_and_add := fun _ _ _ _ l => (false, l) }

/-- The idle concrete bus, with serial number 0. -/
def demoBus : I2CBus :=
  { children := [dev10, dev20, dev30]
    current_devs := []
    broadcast := false
    saved_address := 0
    serial_ := 0
    has_serial_ := true }

/-- The observer after two buses were registered, nothing marked for injection. -/
def demoView : I2CBusStateView :=
  (I2CBusStateView.new.AddI2CBus "i2c_bus_0" 100 0).AddI2CBus "i2c_bus_1" 101 1

/-- The idle concrete machine. -/
def demoMachine : Machine :=
  { bus := demoBus
    trace := []
    g_i2cbusstateview := demoView
    g_in_flight_i2c_txns := []
    g_inject_flag := false
    g_i2cbus_serial := 2 }

/-- The concrete machine right after the observer saw a start on bus 0: the name is in
flight and the counter the observer indexes for that bus went up. -/
def demoObserved : Machine :=
  { demoMachine with
    g_in_flight_i2c_txns := ["i2c_bus_0"]
    g_i2cbusstateview :=
      { demoView with
        states_ := [{ read_count := 0, write_count := 0, tx_count := 0 },
                    { read_count := 0, write_count := 0, tx_count := 1 }] } }

/-- The idle concrete machine with no peripheral attached to the bus. -/
def demoNoKids : Machine :=
  { demoMachine with bus := { demoBus with children := [] } }

/-- The concrete machine with a transaction open on the peripheral at 0x10: the state
`start(0x10, send)` leaves behind. -/
def demoOpen10 : Machine :=
  { demoObserved with
    bus := { demoBus with current_devs := [dev10] }
    trace := [Call.match_and_add dev10 0x10 false,
              Call.event dev10 i2c_event.I2C_START_SEND]
    g_in_flight_i2c_txns := [] }

/-- The machine `demoOpen10` right after the observer saw another start on bus 0. -/
def demoOpen10Observed : Machine :=
  { demoOpen10 with
    g_in_flight_i2c_txns := ["i2c_bus_0"]
    g_i2cbusstateview :=
      { demoView with
        states_ := [{ read_count := 0, write_count := 0, tx_count := 0 },
                    { read_count := 0, write_count := 0, tx_count := 2 }] } }

/-- The concrete machine with a broadcast transaction open: the state
`start(0x00, send)` leaves behind. -/
def demoBroadcast : Machine :=
  { demoObserved with
    bus := { demoBus with current_devs := [dev30, dev20, dev10], broadcast := true }
    trace := [Call.match_and_add dev10 0 true, Call.match_and_add dev20 0 true,
              Call.match_and_add dev30 0 true,
              Call.event dev30 i2c_event.I2C_START_SEND,
              Call.event dev20 i2c_event.I2C_START_SEND,
              Call.event dev10 i2c_event.I2C_START_SEND]
    g_in_flight_i2c_txns := [] }

/-- Peripheral at address 0xFF. -/
def devFF : I2CSlave := { qdev := 4, address := 0xFF }

/-- An idle bus with peripherals at 0x10 and 0xFF. -/
def demoBusFF : I2CBus :=
  { demoBus with children := [dev10, devFF] }

/-- Classes of peripherals that do not answer the general call: the match predicate
accepts the own address only, and only when the scan is not a broadcast scan; the
handlers are those of `demoCls`. -/
def strictCls (s : I2CSlave) : I2CSlaveClass :=
  { demoCls s with
    match_and_add := fun _ c a b l =>
      if c.address = a ∧ b = false then (true, c :: l) else (false, l) }

/-! ## Auxiliary facts -/

/-- The start events are not the finish event. -/
theorem startEvent_ne_finish (is_recv : Bool) : startEvent is_recv ≠ i2c_event.I2C_FINISH := by
  cases is_recv <;> decide

/-- The observer call changes neither the bus nor the callback trace. -/
theorem OnI2CTransactionStart_frame {desc : String} {b inj : Bool} {m m0 : Machine}
    (h : OnI2CTransactionStart desc b m = some (m0, inj)) :
    m0.bus = m.bus ∧ m0.trace = m.trace := by
  unfold OnI2CTransactionStart at h
  cases hv : m.g_i2cbusstateview.OnI2CTransactionStart desc b with
  | none => simp [hv] at h
  | some r =>
    obtain ⟨v1, i⟩ := r
    simp [hv] at h
    obtain ⟨h1, _⟩ := h
    subst h1
    exact ⟨rfl, rfl⟩

/-- The loop of `i2c_end_transfer` and `i2c_nack` appends exactly the event callbacks. -/
theorem deliver_eq (cls : I2CSlave → I2CSlaveClass) (e : i2c_event) (devs : List I2CSlave)
    (tr : History) : deliver cls e devs tr = tr ++ eventCalls cls e devs := by
  induction devs generalizing tr with
  | nil => simp [deliver, eventCalls]
  | cons s rest ih =>
    unfold deliver
    cases hs : (cls s).event with
    | none => simp [ih, eventCalls, hs]
    | some f => simp [ih, eventCalls, hs]

/-- A non-broadcast scan over default-match children none of which has the address
leaves the matched list as it was and asks every child. -/
theorem scan_loop_no_match (cls : I2CSlave → I2CSlaveClass) (address : Nat)
    (kids devs : List I2CSlave) (tr : History)
    (hdef : ∀ c ∈ kids, (cls c).match_and_add = fun _ => i2c_slave_match)
    (hno : ∀ c ∈ kids, c.address ≠ address) :
    i2c_scan_bus_loop cls address false kids devs tr
      = (false, devs, tr ++ matchCalls address false kids) := by
  induction kids generalizing tr with
  | nil => simp [i2c_scan_bus_loop, matchCalls]
  | cons c rest ih =>
    have hc := hdef c (List.mem_cons_self _ _)
    have hn := hno c (List.mem_cons_self _ _)
    have ih1 := ih (tr ++ [Call.match_and_add c address false])
      (fun d hd => hdef d (List.mem_cons_of_mem _ hd))
      (fun d hd => hno d (List.mem_cons_of_mem _ hd))
    unfold i2c_scan_bus_loop
    simp [hc, i2c_slave_match, hn, ih1, matchCalls]

set_option maxRecDepth 8000 in
/-- On the concrete machine the observer call succeeds and signals no injection. -/
theorem demo_observed :
    OnI2CTransactionStart (busname demoMachine.bus) false demoMachine
      = some (demoObserved, false) := by
  decide

/-- No device, no event callback. -/
theorem eventCalls_nil (cls : I2CSlave → I2CSlaveClass) (e : i2c_event) :
    eventCalls cls e [] = [] := rfl

/-- A device with a handler contributes its event callback. -/
theorem eventCalls_cons_some (cls : I2CSlave → I2CSlaveClass) (e : i2c_event) (s : I2CSlave)
    (rest : List I2CSlave) {f : History → I2CSlave → i2c_event → Int}
    (h : (cls s).event = some f) :
    eventCalls cls e (s :: rest) = Call.event s e :: eventCalls cls e rest := by
  simp [eventCalls, h]

/-- A device without a handler contributes no event callback. -/
theorem eventCalls_cons_none (cls : I2CSlave → I2CSlaveClass) (e : i2c_event) (s : I2CSlave)
    (rest : List I2CSlave) (h : (cls s).event = none) :
    eventCalls cls e (s :: rest) = eventCalls cls e rest := by
  simp [eventCalls, h]

/-- The event callbacks of a concatenation. -/
theorem eventCalls_append (cls : I2CSlave → I2CSlaveClass) (e : i2c_event)
    (l1 l2 : List I2CSlave) :
    eventCalls cls e (l1 ++ l2) = eventCalls cls e l1 ++ eventCalls cls e l2 := by
  simp [eventCalls]

/-- Every callback in `eventCalls` is an event callback with the given kind to a listed
device. -/
theorem mem_eventCalls {cls : I2CSlave → I2CSlaveClass} {e : i2c_event}
    {devs : List I2CSlave} {c : Call} (h : c ∈ eventCalls cls e devs) :
    ∃ s, s ∈ devs ∧ c = Call.event s e := by
  simp only [eventCalls, List.mem_map, List.mem_filter] at h
  obtain ⟨s, ⟨hs, _⟩, rfl⟩ := h
  exact ⟨s, hs, rfl⟩

/-- If all of `s :: rest` accept, `rest` accepts after the callbacks made for `s`. -/
theorem AllAccept_tail {cls : I2CSlave → I2CSlaveClass} {e : i2c_event} {tr : History}
    {s : I2CSlave} {rest : List I2CSlave} (h : AllAccept cls e tr (s :: rest)) :
    AllAccept cls e (tr ++ eventCalls cls e [s]) rest := by
  intro p1 p p2 f hd hf
  have h1 := h (s :: p1) p p2 f (by simp [hd]) hf
  have h2 : eventCalls cls e (s :: p1) = eventCalls cls e [s] ++ eventCalls cls e p1 :=
    eventCalls_append cls e [s] p1
  rw [h2] at h1
  simpa [List.append_assoc] using h1

/-- The start loop when no event is refused: every listed device with a handler gets the
event and the loop runs to its end. -/
theorem start_loop_pass (cls : I2CSlave → I2CSlaveClass) (name : String) (e : i2c_event)
    (scanned : Bool) (devs : List I2CSlave) (m : Machine)
    (h : m.bus.broadcast = true ∨ AllAccept cls e m.trace devs) :
    i2c_do_start_transfer_loop cls name e false scanned devs m
      = (none, { m with trace := m.trace ++ eventCalls cls e devs }) := by
  induction devs generalizing m with
  | nil => simp [i2c_do_start_transfer_loop, eventCalls]
  | cons s rest ih =>
    unfold i2c_do_start_transfer_loop
    cases hs : (cls s).event with
    | none =>
      have h1 : m.bus.broadcast = true ∨ AllAccept cls e m.trace rest := by
        rcases h with h | h
        · exact Or.inl h
        · right
          have := AllAccept_tail h
          simpa [eventCalls_cons_none cls e s [] hs, eventCalls_nil] using this
      simp [ih m h1, eventCalls_cons_none cls e s rest hs]
    | some f =>
      have hcont : ¬ (f m.trace s e ≠ 0 ∧ m.bus.broadcast = false) := by
        rcases h with h | h
        · simp [h]
        · have := h [] s rest f rfl hs
          simp [eventCalls_nil] at this
          simp [this]
      have h1 : m.bus.broadcast = true
          ∨ AllAccept cls e (m.trace ++ [Call.event s e]) rest := by
        rcases h with h | h
        · exact Or.inl h
        · right
          have := AllAccept_tail h
          simpa [eventCalls_cons_some cls e s [] hs, eventCalls_nil] using this
      have ih1 := ih { m with trace := m.trace ++ [Call.event s e] } h1
      simp only [] at ih1
      simp [hcont, ih1, eventCalls_cons_some cls e s rest hs]

/-- The start loop on a non-broadcasting bus when `s` is the first device whose handler
refuses the event: the loop returns what that handler returned, after ending the
transfer if the bus was scanned in this call. -/
theorem start_loop_fail (cls : I2CSlave → I2CSlaveClass) (name : String) (e : i2c_event)
    (scanned : Bool) (pre : List I2CSlave) (s : I2CSlave) (post : List I2CSlave) (m : Machine)
    (f : History → I2CSlave → i2c_event → Int)
    (hb : m.bus.broadcast = false) (hpre : AllAccept cls e m.trace pre)
    (hs : (cls s).event = some f) (hrv : f (m.trace ++ eventCalls cls e pre) s e ≠ 0) :
    i2c_do_start_transfer_loop cls name e false scanned (pre ++ s :: post) m
      = (some (f (m.trace ++ eventCalls cls e pre) s e),
         OnI2CTransactionEnd name
           (if scanned = true then
              i2c_end_transfer cls
                { m with trace := m.trace ++ eventCalls cls e pre ++ [Call.event s e] }
            else { m with trace := m.trace ++ eventCalls cls e pre ++ [Call.event s e] })) := by
  induction pre generalizing m with
  | nil =>
    simp only [List.nil_append, eventCalls_nil, List.append_nil] at hrv ⊢
    unfold i2c_do_start_transfer_loop
    simp [hs, hrv, hb]
  | cons p rest ih =>
    simp only [List.cons_append]
    unfold i2c_do_start_transfer_loop
    cases hp : (cls p).event with
    | none =>
      have h1 : AllAccept cls e m.trace rest := by
        have := AllAccept_tail hpre
        simpa [eventCalls_cons_none cls e p [] hp, eventCalls_nil] using this
      rw [eventCalls_cons_none cls e p rest hp] at hrv ⊢
      simpa using ih m hb h1 hrv
    | some g =>
      have hg : g m.trace p e = 0 := by
        have := hpre [] p rest g rfl hp
        simpa [eventCalls_nil] using this
      have h1 : AllAccept cls e (m.trace ++ [Call.event p e]) rest := by
        have := AllAccept_tail hpre
        simpa [eventCalls_cons_some cls e p [] hp, eventCalls_nil] using this
      rw [eventCalls_cons_some cls e p rest hp] at hrv ⊢
      have ih1 := ih { m with trace := m.trace ++ [Call.event p e] } hb h1
        (by simpa [List.append_assoc] using hrv)
      simp only [] at ih1
      simpa [hg, List.append_assoc] using ih1

/-- A non-broadcast scan over default-match children stops at the first child that has
the address and puts it at the head of the matched list. -/
theorem scan_loop_first_match (cls : I2CSlave → I2CSlaveClass) (address : Nat)
    (pre : List I2CSlave) (P : I2CSlave) (post devs : List I2CSlave) (tr : History)
    (hdef : ∀ c ∈ pre ++ P :: post, (cls c).match_and_add = fun _ => i2c_slave_match)
    (hno : ∀ c ∈ pre, c.address ≠ address) (hP : P.address = address) :
    i2c_scan_bus_loop cls address false (pre ++ P :: post) devs tr
      = (true, P :: devs, tr ++ matchCalls address false (pre ++ [P])) := by
  induction pre generalizing tr with
  | nil =>
    have hc := hdef P (by simp)
    simp only [List.nil_append]
    unfold i2c_scan_bus_loop
    simp [hc, i2c_slave_match, hP, matchCalls]
  | cons c rest ih =>
    have hc := hdef c (by simp)
    have hn := hno c (List.mem_cons_self _ _)
    have ih1 := ih (tr ++ [Call.match_and_add c address false])
      (fun d hd => hdef d (by simp at hd ⊢; tauto))
      (fun d hd => hno d (List.mem_cons_of_mem _ hd))
    simp only [List.cons_append]
    unfold i2c_scan_bus_loop
    simp [hc, i2c_slave_match, hn, ih1, matchCalls]

/-- A broadcast scan asks every child and puts those that accept in front of the
matched list, the most recently asked first. -/
theorem scan_loop_broadcast (cls : I2CSlave → I2CSlaveClass) (address : Nat)
    (acc : I2CSlave → Bool) (kids devs : List I2CSlave) (tr : History)
    (hacc : ∀ c ∈ kids, ∀ h l, (cls c).match_and_add h c address true l
      = if acc c = true then (true, c :: l) else (false, l)) :
    i2c_scan_bus_loop cls address true kids devs tr
      = (true, (kids.filter acc).reverse ++ devs, tr ++ matchCalls address true kids) := by
  induction kids generalizing devs tr with
  | nil => simp [i2c_scan_bus_loop, matchCalls]
  | cons c rest ih =>
    have hc := hacc c (List.mem_cons_self _ _)
    have ih1 := fun l t => ih l t (fun d hd => hacc d (List.mem_cons_of_mem _ hd))
    unfold i2c_scan_bus_loop
    cases ha : acc c with
    | true => simp [hc, ha, ih1, matchCalls]
    | false => simp [hc, ha, ih1, matchCalls]

/-- The function `i2c_start_transfer` passes the start event of the direction on. -/
theorem i2c_start_transfer_eq (cls : I2CSlave → I2CSlaveClass) (address : Nat)
    (is_recv : Bool) (m : Machine) :
    i2c_start_transfer cls address is_recv m
      = i2c_do_start_transfer cls address (startEvent is_recv) m := rfl

/-- No match query is an event callback. -/
theorem event_not_mem_matchCalls (address : Nat) (broadcast : Bool) (devs : List I2CSlave)
    (s : I2CSlave) (e : i2c_event) : Call.event s e ∉ matchCalls address broadcast devs := by
  simp [matchCalls]

set_option maxRecDepth 8000 in
/-- The machine `demoOpen10` is what `start(0x10, send)` makes of the idle machine. -/
theorem demo_open_reached :
    i2c_start_transfer demoCls 0x10 false demoMachine = some (0, demoOpen10) := by
  decide

set_option maxRecDepth 8000 in
/-- On `demoOpen10` the observer call succeeds and signals no injection. -/
theorem demo_open_observed :
    OnI2CTransactionStart (busname demoOpen10.bus) false demoOpen10
      = some (demoOpen10Observed, false) := by
  decide

/-- The function `i2c_nack` leaves the bus as it was. -/
theorem i2c_nack_bus (cls : I2CSlave → I2CSlaveClass) (m : Machine) :
    (i2c_nack cls m).bus = m.bus := by
  unfold i2c_nack
  split <;> rfl

/-- The function `i2c_nack` sends the nack event to every matched device with a handler. -/
theorem i2c_nack_trace (cls : I2CSlave → I2CSlaveClass) (m : Machine) :
    (i2c_nack cls m).trace
      = m.trace ++ eventCalls cls i2c_event.I2C_NACK m.bus.current_devs := by
  unfold i2c_nack
  split
  · next h =>
    have h1 : m.bus.current_devs = [] := by simpa using h
    simp [h1, eventCalls_nil]
  · simp [deliver_eq]

/-- Whatever the start loop does, it only adds event callbacks to the trace; when the
bus was not scanned in this call it leaves the bus as it was. -/
theorem start_loop_frame (cls : I2CSlave → I2CSlaveClass) (name : String) (e : i2c_event)
    (inj scanned : Bool) (devs : List I2CSlave) (m : Machine) :
    (scanned = false →
        (i2c_do_start_transfer_loop cls name e inj scanned devs m).2.bus = m.bus)
      ∧ ∃ calls, (i2c_do_start_transfer_loop cls name e inj scanned devs m).2.trace
            = m.trace ++ calls
          ∧ ∀ c ∈ calls, isEvent c = true := by
  induction devs generalizing m with
  | nil => exact ⟨fun _ => rfl, [], by simp [i2c_do_start_transfer_loop], by simp⟩
  | cons s rest ih =>
    unfold i2c_do_start_transfer_loop
    cases hs : (cls s).event with
    | none => simpa using ih m
    | some f =>
      cases inj with
      | true =>
        refine ⟨fun _ => by simp [i2c_nack_bus],
          eventCalls cls i2c_event.I2C_NACK m.bus.current_devs, by simp [i2c_nack_trace], ?_⟩
        intro c hc
        obtain ⟨x, _, rfl⟩ := mem_eventCalls hc
        rfl
      | false =>
        by_cases hrv : f m.trace s e ≠ 0 ∧ m.bus.broadcast = false
        · cases scanned with
          | false =>
            refine ⟨fun _ => by simp [hrv, OnI2CTransactionEnd], [Call.event s e], ?_, ?_⟩
            · simp [hrv, OnI2CTransactionEnd]
            · simp [isEvent]
          | true =>
            refine ⟨fun h => by simp at h, [Call.event s e]
              ++ eventCalls cls i2c_event.I2C_FINISH m.bus.current_devs, ?_, ?_⟩
            · simp [hrv, OnI2CTransactionEnd, i2c_end_transfer, deliver_eq]
            · intro c hc
              rcases List.mem_append.1 hc with h | h
              · simp only [List.mem_singleton] at h
                subst h
                rfl
              · obtain ⟨x, _, rfl⟩ := mem_eventCalls h
                rfl
        · obtain ⟨ih1, calls, ih2, ih3⟩ := ih { m with trace := m.trace ++ [Call.event s e] }
          refine ⟨fun h => ?_, [Call.event s e] ++ calls, ?_, ?_⟩
          · simp only [Bool.false_eq_true, if_false]
            rw [if_neg hrv]
            exact ih1 h
          · simp only [Bool.false_eq_true, if_false]
            rw [if_neg hrv, ih2]
            simp
          · intro c hc
            rcases List.mem_append.1 hc with h | h
            · simp only [List.mem_singleton] at h
              subst h
              rfl
            · exact ih3 c h

/-- A start on a bus whose matched list is not empty returns a result (given the observer
call has one), leaves the matched list as it was, and makes event callbacks only. -/
theorem start_open_frame (cls : I2CSlave → I2CSlaveClass) (m m0 : Machine)
    (address : Nat) (e : i2c_event) (inj : Bool)
    (hne : m.bus.current_devs ≠ [])
    (hobs : OnI2CTransactionStart (busname m.bus) false m = some (m0, inj)) :
    ∃ rv m' calls, i2c_do_start_transfer cls address e m = some (rv, m')
      ∧ m'.bus.current_devs = m.bus.current_devs
      ∧ m'.trace = m.trace ++ calls
      ∧ ∀ c ∈ calls, isEvent c = true := by
  obtain ⟨hbus, htr⟩ := OnI2CTransactionStart_frame hobs
  unfold i2c_do_start_transfer
  simp only [hobs]
  generalize hM : (if address = I2C_BROADCAST then
    ({ m0 with bus := { m0.bus with broadcast := true } } : Machine) else m0) = M
  have hMdevs : M.bus.current_devs = m.bus.current_devs := by
    subst hM
    split <;> simp [hbus]
  have hMtr : M.trace = m.trace := by
    subst hM
    split <;> simp [htr]
  have hemp : M.bus.current_devs.isEmpty = false := by
    rw [hMdevs]
    cases h : m.bus.current_devs with
    | nil => exact absurd h hne
    | cons a l => rfl
  simp only [hemp, Bool.false_eq_true, ↓reduceIte]
  obtain ⟨hf1, calls, hf2, hf3⟩ :=
    start_loop_frame cls (busname m.bus) e inj false M.bus.current_devs M
  rcases hl : i2c_do_start_transfer_loop cls (busname m.bus) e inj false
    M.bus.current_devs M with ⟨r, m3⟩
  rw [hl] at hf1 hf2
  simp only at hf1 hf2
  have hbus3 : m3.bus.current_devs = m.bus.current_devs := by rw [hf1 trivial, hMdevs]
  cases r with
  | some rv => exact ⟨rv, m3, calls, rfl, hbus3, by rw [hf2, hMtr], hf3⟩
  | none =>
    cases inj with
    | true =>
      refine ⟨0, i2c_nack cls m3, calls ++ eventCalls cls i2c_event.I2C_NACK m3.bus.current_devs,
        rfl, by rw [i2c_nack_bus, hbus3], by rw [i2c_nack_trace, hf2, hMtr, List.append_assoc],
        ?_⟩
      intro c hc
      rcases List.mem_append.1 hc with h | h
      · exact hf3 c h
      · obtain ⟨x, _, rfl⟩ := mem_eventCalls h
        rfl
    | false =>
      exact ⟨0, OnI2CTransactionEnd (busname m.bus) m3, calls, rfl, hbus3,
        by simp [OnI2CTransactionEnd, hf2, hMtr], hf3⟩

/-- A start on an idle, non-broadcasting bus with default-match children, for the
address of the attached peripheral `P`: the callbacks made are the match queries up to
`P`, followed by event callbacks only. -/
theorem start_idle_trace (cls : I2CSlave → I2CSlaveClass) (m m0 m1 : Machine)
    (pre : List I2CSlave) (P : I2CSlave) (post : List I2CSlave) (e : i2c_event) (rv : Int)
    (hidle : m.bus.current_devs = []) (hb : m.bus.broadcast = false)
    (hobs : OnI2CTransactionStart (busname m.bus) false m = some (m0, false))
    (hkids : m.bus.children = pre ++ P :: post)
    (hdef : ∀ c ∈ m.bus.children, (cls c).match_and_add = fun _ => i2c_slave_match)
    (hno : ∀ c ∈ pre, c.address ≠ P.address)
    (haddr : P.address ≠ I2C_BROADCAST)
    (h : i2c_do_start_transfer cls P.address e m = some (rv, m1)) :
    ∃ calls, m1.trace = m.trace ++ matchCalls P.address false (pre ++ [P]) ++ calls
      ∧ ∀ c ∈ calls, isEvent c = true := by
  obtain ⟨hbus, htr⟩ := OnI2CTransactionStart_frame hobs
  rw [hkids] at hdef
  have hscan := scan_loop_first_match cls P.address pre P post [] m.trace hdef hno rfl
  rcases m with ⟨⟨kids, cd, bc, sa, ser, hs⟩, tr, v, infl, injf, gser⟩
  rcases m0 with ⟨bus0, tr0, v0, infl0, injf0, gser0⟩
  simp only at hidle hb hbus htr hscan hkids
  subst hidle hb hbus htr hkids
  obtain ⟨_, calls, hf2, hf3⟩ := start_loop_frame cls
    (busname ⟨pre ++ P :: post, [], false, sa, ser, hs⟩) e false true [P]
    ⟨⟨pre ++ P :: post, [P], false, sa, ser, hs⟩,
      tr0 ++ matchCalls P.address false (pre ++ [P]), v0, infl0, injf0, gser0⟩
  unfold i2c_do_start_transfer at h
  simp only [hobs, haddr, i2c_scan_bus, hscan, if_false, List.isEmpty_nil, if_true,
    List.isEmpty_cons, Bool.false_eq_true] at h
  rcases hl : i2c_do_start_transfer_loop cls
    (busname ⟨pre ++ P :: post, [], false, sa, ser, hs⟩) e false true [P]
    ⟨⟨pre ++ P :: post, [P], false, sa, ser, hs⟩,
      tr0 ++ matchCalls P.address false (pre ++ [P]), v0, infl0, injf0, gser0⟩ with ⟨r, m3⟩
  rw [hl] at h hf2
  cases r with
  | some rv1 =>
    simp only [Option.some.injEq, Prod.mk.injEq] at h
    obtain ⟨_, rfl⟩ := h
    exact ⟨calls, hf2, hf3⟩
  | none =>
    simp only [Option.some.injEq, Prod.mk.injEq] at h
    obtain ⟨_, rfl⟩ := h
    exact ⟨calls, by simpa [OnI2CTransactionEnd] using hf2, hf3⟩

/-- An event callback is no query of a match predicate. -/
theorem isMatchOf_of_isEvent {P : I2CSlave} {c : Call} (h : isEvent c = true) :
    isMatchOf P c = false := by
  cases c <;> simp_all [isEvent, isMatchOf]

/-- Among event callbacks none queries the match predicate of `P`. -/
theorem countP_isMatchOf_events (P : I2CSlave) (calls : List Call)
    (h : ∀ c ∈ calls, isEvent c = true) : calls.countP (isMatchOf P) = 0 := by
  rw [List.countP_eq_zero]
  intro c hc
  simp [isMatchOf_of_isEvent (h c hc)]

/-- The match queries to devices other than `P` do not query the predicate of `P`. -/
theorem countP_isMatchOf_others (P : I2CSlave) (address : Nat) (broadcast : Bool)
    (devs : List I2CSlave) (h : ∀ c ∈ devs, c ≠ P) :
    (matchCalls address broadcast devs).countP (isMatchOf P) = 0 := by
  rw [List.countP_eq_zero]
  intro c hc
  simp only [matchCalls, List.mem_map] at hc
  obtain ⟨d, hd, rfl⟩ := hc
  simp [isMatchOf, h d hd]

/-- Whatever the match predicates do, a scan only adds match queries to the trace. -/
theorem scan_loop_calls (cls : I2CSlave → I2CSlaveClass) (address : Nat) (broadcast : Bool)
    (kids devs : List I2CSlave) (tr : History) :
    ∃ calls, (i2c_scan_bus_loop cls address broadcast kids devs tr).2.2 = tr ++ calls
      ∧ ∀ c ∈ calls, isEvent c = false := by
  induction kids generalizing devs tr with
  | nil => exact ⟨[], by simp [i2c_scan_bus_loop], by simp⟩
  | cons k rest ih =>
    unfold i2c_scan_bus_loop
    simp only
    split
    · exact ⟨[Call.match_and_add k address broadcast], rfl, by simp [isEvent]⟩
    · obtain ⟨calls, h1, h2⟩ := ih
        ((cls k).match_and_add tr k address broadcast devs).2
        (tr ++ [Call.match_and_add k address broadcast])
      refine ⟨Call.match_and_add k address broadcast :: calls, by rw [h1]; simp, ?_⟩
      intro c hc
      rcases List.mem_cons.1 hc with h | h
      · subst h
        rfl
      · exact h2 c h

/-- With injection signalled the start loop delivers no start event: it either returns 0
after `i2c_nack`, or runs to its end without any callback. -/
theorem start_loop_inject (cls : I2CSlave → I2CSlaveClass) (name : String) (e : i2c_event)
    (scanned : Bool) (devs : List I2CSlave) (m : Machine) :
    i2c_do_start_transfer_loop cls name e true scanned devs m = (some 0, i2c_nack cls m)
      ∨ i2c_do_start_transfer_loop cls name e true scanned devs m = (none, m) := by
  induction devs with
  | nil => exact Or.inr rfl
  | cons s rest ih =>
    unfold i2c_do_start_transfer_loop
    cases hs : (cls s).event with
    | none => simpa using ih
    | some f => exact Or.inl (by simp)

set_option maxRecDepth 8000 in
/-- The machine `demoBroadcast` is what `start(0x00, send)` makes of the idle machine. -/
theorem demo_broadcast_reached :
    i2c_start_transfer demoCls I2C_BROADCAST false demoMachine = some (0, demoBroadcast) := by
  decide

/-- If all of `s :: rest` take the byte, `rest` takes it after the send to `s`. -/
theorem AllTake_tail {cls : I2CSlave → I2CSlaveClass} {data : Nat} {tr : History}
    {s : I2CSlave} {rest : List I2CSlave} (h : AllTake cls data tr (s :: rest)) :
    AllTake cls data (tr ++ [Call.send s data]) rest := by
  intro p1 p p2 hd
  obtain ⟨f, hf, h0⟩ := h (s :: p1) p p2 (by simp [hd])
  exact ⟨f, hf, by simpa [sendCalls, List.append_assoc] using h0⟩

/-- The empty list takes every byte. -/
theorem AllTake_nil (cls : I2CSlave → I2CSlaveClass) (data : Nat) (tr : History) :
    AllTake cls data tr [] := by
  intro p1 p p2 hd
  simp at hd

/-- If `s` takes the byte and `rest` takes it afterwards, `s :: rest` takes it. -/
theorem AllTake_cons {cls : I2CSlave → I2CSlaveClass} {data : Nat} {tr : History}
    {s : I2CSlave} {rest : List I2CSlave} {f : History → I2CSlave → Nat → Int}
    (hf : (cls s).send = some f) (h0 : f tr s data = 0)
    (h : AllTake cls data (tr ++ [Call.send s data]) rest) :
    AllTake cls data tr (s :: rest) := by
  intro p1 p p2 hd
  cases p1 with
  | nil =>
    simp only [List.nil_append, List.cons.injEq] at hd
    obtain ⟨rfl, _⟩ := hd
    exact ⟨f, hf, by simpa [sendCalls] using h0⟩
  | cons q p1 =>
    simp only [List.cons_append, List.cons.injEq] at hd
    obtain ⟨rfl, hd⟩ := hd
    obtain ⟨g, hg, hg0⟩ := h p1 p p2 hd
    exact ⟨g, hg, by simpa [sendCalls, List.append_assoc] using hg0⟩

/-- Every matched list splits, in one way, into the leading devices that all take the
byte and a rest whose head, if any, refuses it: the hypotheses of `send_loop_eq` can be
met for every list and every history. -/
theorem send_split_exists (cls : I2CSlave → I2CSlaveClass) (data : Nat)
    (devs : List I2CSlave) (tr : History) :
    ∃ pre rest, devs = pre ++ rest ∧ AllTake cls data tr pre
      ∧ ∀ s post, rest = s :: post → Refuses cls data (tr ++ sendCalls data pre) s := by
  induction devs generalizing tr with
  | nil => exact ⟨[], [], rfl, AllTake_nil _ _ _, fun s post h => by cases h⟩
  | cons d l ih =>
    by_cases hd : Refuses cls data tr d
    · refine ⟨[], d :: l, rfl, AllTake_nil _ _ _, fun s post h => ?_⟩
      simp only [List.cons.injEq] at h
      obtain ⟨rfl, _⟩ := h
      simpa [sendCalls] using hd
    · cases hs : (cls d).send with
      | none => exact absurd (Or.inl hs) hd
      | some f =>
        have h0 : f tr d data = 0 := by
          by_contra hne
          exact hd (Or.inr ⟨f, hs, hne⟩)
        obtain ⟨pre, rest, hl, hpre, hrest⟩ := ih (tr ++ [Call.send d data])
        refine ⟨d :: pre, rest, by simp [hl], AllTake_cons hs h0 hpre, fun s post h => ?_⟩
        simpa [sendCalls, List.append_assoc] using hrest s post h

/-- Once `ret` is non-zero the send loop makes no further callback and ends non-zero. -/
theorem send_loop_failed (cls : I2CSlave → I2CSlaveClass) (data : Nat)
    (devs : List I2CSlave) (ret : Int) (tr : History) (h : ret ≠ 0) :
    (i2c_send_loop cls data devs ret tr).2 = tr
      ∧ (i2c_send_loop cls data devs ret tr).1 ≠ 0 := by
  induction devs generalizing ret with
  | nil => exact ⟨rfl, h⟩
  | cons s rest ih =>
    unfold i2c_send_loop
    cases hs : (cls s).send with
    | none => simpa using ih (-1) (by decide)
    | some f => simpa [h] using ih 1 (by decide)

/-- The send loop from `ret = 0`: every device of `pre` takes the byte, and the first
device after them, if any, refuses it.  The callbacks are the sends to `pre` and, when
it has the capability, to that first refusing device; the loop ends with zero exactly
when no device refused. -/
theorem send_loop_eq (cls : I2CSlave → I2CSlaveClass) (data : Nat)
    (pre rest : List I2CSlave) (tr : History)
    (hpre : AllTake cls data tr pre)
    (hrest : ∀ s post, rest = s :: post → Refuses cls data (tr ++ sendCalls data pre) s) :
    (i2c_send_loop cls data (pre ++ rest) 0 tr).2
        = tr ++ sendCalls data pre
          ++ sendCalls data ((rest.take 1).filter (fun s => (cls s).send.isSome))
      ∧ ((i2c_send_loop cls data (pre ++ rest) 0 tr).1 = 0 ↔ rest = []) := by
  induction pre generalizing tr with
  | nil =>
    cases rest with
    | nil => simp [i2c_send_loop, sendCalls]
    | cons s post =>
      have hr := hrest s post rfl
      simp only [sendCalls, List.map_nil, List.append_nil] at hr
      simp only [List.nil_append]
      unfold i2c_send_loop
      rcases hr with hr | ⟨f, hf, hne⟩
      · obtain ⟨h1, h2⟩ := send_loop_failed cls data post (-1) tr (by decide)
        simp [hr, h1, h2, sendCalls]
      · obtain ⟨h1, h2⟩ := send_loop_failed cls data post 1 (tr ++ [Call.send s data])
          (by decide)
        simp [hf, hne, h1, h2, sendCalls]
  | cons p pre1 ih =>
    obtain ⟨f, hf, h0⟩ := hpre [] p pre1 rfl
    simp only [sendCalls, List.map_nil, List.append_nil] at h0
    have ih1 := ih (tr ++ [Call.send p data]) (AllTake_tail hpre)
      (by
        intro s post hs
        have := hrest s post hs
        simpa [sendCalls, List.append_assoc] using this)
    simp only [List.cons_append]
    unfold i2c_send_loop
    simp only [hf, h0]
    simpa [sendCalls, List.append_assoc] using ih1

/-- A start that is a broadcast, or that finds the broadcast flag already set: the flag
is set afterwards, the matched list is the scan result when the list was empty and is
unchanged otherwise, and the result is 0 unless the matched list ends up empty. -/
theorem start_broadcast_frame (cls : I2CSlave → I2CSlaveClass) (m m0 : Machine)
    (address : Nat) (e : i2c_event) (inj : Bool)
    (hobs : OnI2CTransactionStart (busname m.bus) false m = some (m0, inj))
    (hbc : address = I2C_BROADCAST ∨ m.bus.broadcast = true) :
    ∃ rv m' calls, i2c_do_start_transfer cls address e m = some (rv, m')
      ∧ m'.bus.broadcast = true
      ∧ m'.bus.children = m.bus.children
      ∧ m'.bus.current_devs = (if m.bus.current_devs.isEmpty = true then
          (i2c_scan_bus cls m.bus address true [] m.trace).2.1 else m.bus.current_devs)
      ∧ (m'.bus.current_devs ≠ [] → rv = 0)
      ∧ m'.trace = m.trace ++ calls
      ∧ (m.bus.current_devs ≠ [] → ∀ c ∈ calls, isEvent c = true) := by
  obtain ⟨hbus, htr⟩ := OnI2CTransactionStart_frame hobs
  unfold i2c_do_start_transfer
  simp only [hobs]
  generalize hM : (if address = I2C_BROADCAST then
    ({ m0 with bus := { m0.bus with broadcast := true } } : Machine) else m0) = M
  have hMtr : M.trace = m.trace := by
    subst hM
    split <;> simp [htr]
  have hMb : M.bus.broadcast = true := by
    subst hM
    split
    · rfl
    · next h =>
      rcases hbc with h1 | h1
      · exact absurd h1 h
      · rw [hbus]; exact h1
  have hMd : M.bus.current_devs = m.bus.current_devs := by
    subst hM
    split <;> simp [hbus]
  have hMk : M.bus.children = m.bus.children := by
    subst hM
    split <;> simp [hbus]
  have hMbus : (i2c_scan_bus cls M.bus address M.bus.broadcast M.bus.current_devs M.trace)
      = (i2c_scan_bus cls m.bus address true m.bus.current_devs m.trace) := by
    simp only [i2c_scan_bus, hMb, hMd, hMtr, hMk]
  generalize hM2 : (if M.bus.current_devs.isEmpty = true then
      ({ M with
          bus := { M.bus with
            current_devs := (i2c_scan_bus cls M.bus address M.bus.broadcast
              M.bus.current_devs M.trace).2.1 }
          trace := (i2c_scan_bus cls M.bus address M.bus.broadcast
              M.bus.current_devs M.trace).2.2 } : Machine)
    else M) = M2
  have h2b : M2.bus.broadcast = true := by
    subst hM2
    split <;> simp [hMb]
  have h2k : M2.bus.children = m.bus.children := by
    subst hM2
    split <;> simp [hMk]
  have h2d : M2.bus.current_devs = (if m.bus.current_devs.isEmpty = true then
      (i2c_scan_bus cls m.bus address true [] m.trace).2.1 else m.bus.current_devs) := by
    subst hM2
    rw [hMbus, hMd]
    split
    · next h =>
      have h1 : m.bus.current_devs = [] := by simpa using h
      simp [h1]
    · exact hMd
  have h2t : ∃ calls0, M2.trace = m.trace ++ calls0
      ∧ (m.bus.current_devs ≠ [] → calls0 = []) := by
    subst hM2
    split
    · next h =>
      have h1 : m.bus.current_devs = [] := by
        rw [hMd] at h
        simpa using h
      obtain ⟨sc, hsc1, _⟩ := scan_loop_calls cls address M.bus.broadcast M.bus.children
        M.bus.current_devs M.trace
      exact ⟨sc, by simp only [i2c_scan_bus]; rw [hsc1, hMtr], fun hne => absurd h1 hne⟩
    · exact ⟨[], by simp [hMtr], fun _ => rfl⟩
  obtain ⟨calls0, hc1, hc2⟩ := h2t
  cases hD : M2.bus.current_devs with
  | nil =>
    refine ⟨1, M2, calls0, by simp, h2b, h2k, h2d, fun h => absurd hD h, hc1, ?_⟩
    intro hne
    rw [hc2 hne]
    simp
  | cons d rest =>
    cases inj with
    | true =>
      have hres : (match i2c_do_start_transfer_loop cls (busname m.bus) e true
            M.bus.current_devs.isEmpty (d :: rest) M2 with
          | (some rv, m3) => some (rv, m3)
          | (none, m3) =>
            if true = true then some (0, i2c_nack cls m3)
            else some (0, OnI2CTransactionEnd (busname m.bus) m3))
          = some (0, i2c_nack cls M2) := by
        rcases start_loop_inject cls (busname m.bus) e
          M.bus.current_devs.isEmpty (d :: rest) M2 with h | h <;> simp [h]
      refine ⟨0, i2c_nack cls M2, calls0 ++ eventCalls cls i2c_event.I2C_NACK (d :: rest),
        by simpa using hres, by rw [i2c_nack_bus]; exact h2b, by rw [i2c_nack_bus]; exact h2k,
        by rw [i2c_nack_bus]; exact h2d, fun _ => rfl,
        by rw [i2c_nack_trace, hc1, hD, List.append_assoc], ?_⟩
      intro hne c hc
      rw [hc2 hne] at hc
      obtain ⟨x, _, rfl⟩ := mem_eventCalls (by simpa using hc)
      rfl
    | false =>
      have hloop := start_loop_pass cls (busname m.bus) e M.bus.current_devs.isEmpty
        (d :: rest) M2 (Or.inl h2b)
      refine ⟨0, OnI2CTransactionEnd (busname m.bus)
          { M2 with trace := M2.trace ++ eventCalls cls e (d :: rest) },
        calls0 ++ eventCalls cls e (d :: rest), by simp [hloop], h2b, h2k, h2d, fun _ => rfl,
        by simp [OnI2CTransactionEnd, hc1], ?_⟩
      intro hne c hc
      rw [hc2 hne] at hc
      obtain ⟨x, _, rfl⟩ := mem_eventCalls (by simpa using hc)
      rfl

/-- When a start returns a result, the observer call had one. -/
theorem start_obs_defined {cls : I2CSlave → I2CSlaveClass} {address : Nat} {e : i2c_event}
    {m : Machine} {r : Int × Machine} (h : i2c_do_start_transfer cls address e m = some r) :
    ∃ m0 inj, OnI2CTransactionStart (busname m.bus) false m = some (m0, inj) := by
  cases hobs : OnI2CTransactionStart (busname m.bus) false m with
  | none =>
    unfold i2c_do_start_transfer at h
    simp [hobs] at h
  | some p => exact ⟨p.1, p.2, rfl⟩

/-- The function `i2c_send` leaves the bus as it was. -/
theorem i2c_send_bus (cls : I2CSlave → I2CSlaveClass) (data : Nat) (m : Machine) :
    (i2c_send cls data m).2.bus = m.bus := rfl

/-- The function `i2c_recv` leaves the bus as it was. -/
theorem i2c_recv_bus (cls : I2CSlave → I2CSlaveClass) (m : Machine) :
    (i2c_recv cls m).2.bus = m.bus := by
  unfold i2c_recv
  cases hd : m.bus.current_devs with
  | nil => rfl
  | cons s rest =>
    cases hb : m.bus.broadcast with
    | true => simp
    | false => cases hf : (cls s).recv <;> simp [hf]

/-- While the bus is broadcasting with a non-empty matched list, every operation other
than `i2c_end_transfer` keeps the broadcast flag and the matched list. -/
theorem step_keeps_broadcast (cls : I2CSlave → I2CSlaveClass) (op : Op) (m M : Machine)
    (hop : op ≠ Op.end_transfer) (hb : m.bus.broadcast = true)
    (hne : m.bus.current_devs ≠ []) (h : step cls op m = some M) :
    M.bus.broadcast = true ∧ M.bus.current_devs = m.bus.current_devs := by
  cases op with
  | start address is_recv =>
    simp only [step, Option.map_eq_some', Prod.exists] at h
    obtain ⟨rv, M1, hs, rfl⟩ := h
    rw [i2c_start_transfer_eq] at hs
    obtain ⟨m0, inj, hobs⟩ := start_obs_defined hs
    obtain ⟨rv1, m1, calls, h1, h2, _, h4, _⟩ :=
      start_broadcast_frame cls m m0 address (startEvent is_recv) inj hobs (Or.inr hb)
    rw [hs] at h1
    simp only [Option.some.injEq, Prod.mk.injEq] at h1
    obtain ⟨_, rfl⟩ := h1
    have hemp : m.bus.current_devs.isEmpty = false := by
      cases hd : m.bus.current_devs with
      | nil => exact absurd hd hne
      | cons a l => rfl
    rw [hemp] at h4
    exact ⟨h2, by simpa using h4⟩
  | send data =>
    simp only [step, Option.some.injEq] at h
    subst h
    rw [i2c_send_bus]
    exact ⟨hb, rfl⟩
  | recv =>
    simp only [step, Option.some.injEq] at h
    subst h
    rw [i2c_recv_bus]
    exact ⟨hb, rfl⟩
  | nack =>
    simp only [step, Option.some.injEq] at h
    subst h
    rw [i2c_nack_bus]
    exact ⟨hb, rfl⟩
  | end_transfer => exact absurd rfl hop

/-- While the bus is broadcasting with a non-empty matched list, every sequence of
operations without `i2c_end_transfer` keeps the broadcast flag and the matched list. -/
theorem run_keeps_broadcast (cls : I2CSlave → I2CSlaveClass) (ops : List Op) (m M : Machine)
    (hops : Op.end_transfer ∉ ops) (hb : m.bus.broadcast = true)
    (hne : m.bus.current_devs ≠ []) (h : run cls ops m = some M) :
    M.bus.broadcast = true ∧ M.bus.current_devs = m.bus.current_devs := by
  induction ops generalizing m with
  | nil =>
    simp only [run, Option.some.injEq] at h
    subst h
    exact ⟨hb, rfl⟩
  | cons op rest ih =>
    simp only [run, Option.bind_eq_some] at h
    obtain ⟨m1, h1, h2⟩ := h
    have hop : op ≠ Op.end_transfer := fun hEq => hops (by simp [hEq])
    obtain ⟨hb1, hd1⟩ := step_keeps_broadcast cls op m m1 hop hb hne h1
    have hrest : Op.end_transfer ∉ rest := fun hmem => hops (List.mem_cons_of_mem _ hmem)
    obtain ⟨hb2, hd2⟩ := ih m1 hrest hb1 (by rw [hd1]; exact hne) h2
    exact ⟨hb2, by rw [hd2, hd1]⟩

/-- The function `i2c_slave_post_load` leaves `saved_address` as it was. -/
theorem post_load_saved (d : I2CSlave) (bus : I2CBus) :
    (i2c_slave_post_load d bus).2.saved_address = bus.saved_address := by
  unfold i2c_slave_post_load
  split <;> rfl

/-- The restore puts in front of the matched list, most recently restored first, the
devices whose address is the saved one, or all devices when the saved address is the
broadcast address. -/
theorem postLoadAll_devs (kids : List I2CSlave) (bus : I2CBus) :
    (postLoadAll kids bus).current_devs
      = (kids.filter (fun d => decide (bus.saved_address = d.address
          ∨ bus.saved_address = I2C_BROADCAST))).reverse ++ bus.current_devs := by
  induction kids generalizing bus with
  | nil => simp [postLoadAll]
  | cons d rest ih =>
    simp only [postLoadAll]
    rw [ih, post_load_saved]
    unfold i2c_slave_post_load
    by_cases h : bus.saved_address = d.address ∨ bus.saved_address = I2C_BROADCAST
    · simp [h, List.filter_cons]
    · simp [h, List.filter_cons]

/-- Membership in the matched list after snapshot and restore. -/
theorem mem_roundTrip (bus : I2CBus) (c : I2CSlave) :
    c ∈ (roundTrip bus).current_devs ↔
      c ∈ bus.children ∧ ((i2c_bus_pre_save bus).2.saved_address = c.address
        ∨ (i2c_bus_pre_save bus).2.saved_address = I2C_BROADCAST) := by
  unfold roundTrip
  rw [postLoadAll_devs]
  have hk : (i2c_bus_pre_save bus).2.children = bus.children := by
    unfold i2c_bus_pre_save
    cases hd : bus.current_devs with
    | nil => rfl
    | cons s rest => cases hb : bus.broadcast <;> simp [hd]
  simp [List.mem_filter, hk]

/-- Looking up a key right after assigning it yields the assigned value. -/
theorem mapAt_mapAssign {β : Type} (key : String) (value : β) (l : List (String × β)) :
    mapAt key (mapAssign key value l) = some value := by
  induction l with
  | nil => simp [mapAssign, mapAt]
  | cons kv rest ih =>
    obtain ⟨k, v⟩ := kv
    by_cases h : k = key
    · simp [mapAssign, mapAt, h]
    · simp [mapAssign, mapAt, h, ih]

/-- The bus registered last is recorded at the index one past the end of `states_`, so
the observer call for it has no defined result. -/
theorem AddI2CBus_index_out_of_range (v : I2CBusStateView) (desc : String) (obj : Nat)
    (i : Int) (b : Bool) :
    mapAt desc (v.AddI2CBus desc obj i).i2c2idx_
        = some (Int.ofNat (v.AddI2CBus desc obj i).states_.length)
      ∧ vecGet (v.AddI2CBus desc obj i).states_
          (Int.ofNat (v.AddI2CBus desc obj i).states_.length) = none
      ∧ (v.AddI2CBus desc obj i).OnI2CTransactionStart desc b = none := by
  have h1 : mapAt desc (v.AddI2CBus desc obj i).i2c2idx_
      = some (Int.ofNat (v.AddI2CBus desc obj i).states_.length) := by
    simp only [I2CBusStateView.AddI2CBus]
    exact mapAt_mapAssign _ _ _
  have h2 : vecGet (v.AddI2CBus desc obj i).states_
      (Int.ofNat (v.AddI2CBus desc obj i).states_.length) = none := by
    simp [vecGet]
  refine ⟨h1, h2, ?_⟩
  unfold I2CBusStateView.OnI2CTransactionStart
  rw [h1]
  simp only [h2]

/-- C1: on an idle bus with no injection pending, a start with a non-broadcast address
that no attached peripheral (default match predicate) has returns the non-zero result 1,
leaves the matched list empty and the broadcast flag clear, and makes no callback other
than the match queries of the scan, in particular no event callback. -/
theorem C1_start_no_responder (cls : I2CSlave → I2CSlaveClass) (m m0 : Machine)
    (address : Nat) (is_recv : Bool)
    (hidle : m.bus.current_devs = []) (hb : m.bus.broadcast = false)
    (hobs : OnI2CTransactionStart (busname m.bus) false m = some (m0, false))
    (hdef : ∀ c ∈ m.bus.children, (cls c).match_and_add = fun _ => i2c_slave_match)
    (haddr : address ≠ I2C_BROADCAST)
    (hno : ∀ c ∈ m.bus.children, c.address ≠ address) :
    ∃ rv m', i2c_start_transfer cls address is_recv m = some (rv, m')
      ∧ rv ≠ 0 ∧ m'.bus.current_devs = [] ∧ m'.bus.broadcast = false
      ∧ m'.trace = m.trace ++ matchCalls address false m.bus.children
      ∧ ∀ s e, Call.event s e ∉ matchCalls address false m.bus.children := by
  obtain ⟨hbus, htr⟩ := OnI2CTransactionStart_frame hobs
  have hscan := scan_loop_no_match cls address m.bus.children [] m.trace hdef hno
  rcases m with ⟨⟨kids, cd, bc, sa, ser, hs⟩, tr, v, infl, injf, gser⟩
  rcases m0 with ⟨bus0, tr0, v0, infl0, injf0, gser0⟩
  simp only at hidle hb hbus htr hscan
  subst hidle hb hbus htr
  refine ⟨1, ⟨⟨kids, [], false, sa, ser, hs⟩, tr0 ++ matchCalls address false kids,
    v0, infl0, injf0, gser0⟩, ?_, by decide, ?_, ?_, ?_, ?_⟩
  · unfold i2c_start_transfer i2c_do_start_transfer
    simp [hobs, haddr, i2c_scan_bus, hscan]
  · rfl
  · rfl
  · rfl
  · intro s e
    simp [matchCalls]

/-- C1 at the concrete bus: address 0x40 is no peripheral's address. -/
theorem C1_start_no_responder_witness :
    ∃ rv m', i2c_start_transfer demoCls 0x40 true demoMachine = some (rv, m')
      ∧ rv ≠ 0 ∧ m'.bus.current_devs = [] ∧ m'.bus.broadcast = false
      ∧ m'.trace = demoMachine.trace ++ matchCalls 0x40 false demoMachine.bus.children
      ∧ ∀ s e, Call.event s e ∉ matchCalls 0x40 false demoMachine.bus.children :=
  C1_start_no_responder demoCls demoMachine demoObserved 0x40 true
    (by decide) (by decide) demo_observed (by intro c _; rfl) (by decide) (by decide)

/-- C2: on an idle bus whose attached peripherals (default match predicate) have pairwise
distinct addresses, with no injection pending, a start with the non-broadcast address of
an attached peripheral `P` whose event handler accepts the start event returns 0; after
it the matched list is exactly `[P]`, and the callbacks made are the match queries of the
scan followed by one single event callback: the start event for the requested direction,
delivered to `P`. -/
theorem C2_start_selects_peripheral (cls : I2CSlave → I2CSlaveClass) (m m0 : Machine)
    (pre : List I2CSlave) (P : I2CSlave) (post : List I2CSlave) (is_recv : Bool)
    (handler : History → I2CSlave → i2c_event → Int)
    (hidle : m.bus.current_devs = []) (hb : m.bus.broadcast = false)
    (hobs : OnI2CTransactionStart (busname m.bus) false m = some (m0, false))
    (hkids : m.bus.children = pre ++ P :: post)
    (hdef : ∀ c ∈ m.bus.children, (cls c).match_and_add = fun _ => i2c_slave_match)
    (hdistinct : m.bus.children.Pairwise (fun a b => a.address ≠ b.address))
    (haddr : P.address ≠ I2C_BROADCAST)
    (hev : (cls P).event = some handler)
    (hok : handler (m.trace ++ matchCalls P.address false (pre ++ [P])) P
      (if is_recv = true then i2c_event.I2C_START_RECV else i2c_event.I2C_START_SEND) = 0) :
    ∃ m', i2c_start_transfer cls P.address is_recv m = some (0, m')
      ∧ m'.bus.current_devs = [P] ∧ m'.bus.broadcast = false
      ∧ m'.trace = m.trace ++ matchCalls P.address false (pre ++ [P])
          ++ [Call.event P
            (if is_recv = true then i2c_event.I2C_START_RECV else i2c_event.I2C_START_SEND)]
      ∧ ∀ s e, Call.event s e ∉ matchCalls P.address false (pre ++ [P]) := by
  obtain ⟨hbus, htr⟩ := OnI2CTransactionStart_frame hobs
  have hno : ∀ c ∈ pre, c.address ≠ P.address := by
    rw [hkids, List.pairwise_append] at hdistinct
    intro c hc
    exact hdistinct.2.2 c hc P (List.mem_cons_self _ _)
  rw [hkids] at hdef
  have hscan := scan_loop_first_match cls P.address pre P post [] m.trace hdef hno rfl
  rcases m with ⟨⟨kids, cd, bc, sa, ser, hs⟩, tr, v, infl, injf, gser⟩
  rcases m0 with ⟨bus0, tr0, v0, infl0, injf0, gser0⟩
  simp only at hidle hb hbus htr hscan hkids hok
  subst hidle hb hbus htr hkids
  have hloop := start_loop_pass cls (busname ⟨pre ++ P :: post, [], false, sa, ser, hs⟩)
    (startEvent is_recv) true [P]
    ⟨⟨pre ++ P :: post, [P], false, sa, ser, hs⟩,
      tr0 ++ matchCalls P.address false (pre ++ [P]), v0, infl0, injf0, gser0⟩
    (Or.inr (by
      intro p1 p p2 f hd hf
      rcases p1 with _ | ⟨q, p1⟩
      · simp only [List.nil_append, List.cons.injEq] at hd
        obtain ⟨rfl, _⟩ := hd
        rw [hev] at hf
        cases hf
        simpa [eventCalls_nil, startEvent] using hok
      · simp at hd))
  refine ⟨⟨⟨pre ++ P :: post, [P], false, sa, ser, hs⟩,
    tr0 ++ matchCalls P.address false (pre ++ [P]) ++ [Call.event P (startEvent is_recv)],
    v0, [], false, gser0⟩, ?_, rfl, rfl, rfl, ?_⟩
  · rw [i2c_start_transfer_eq]
    unfold i2c_do_start_transfer
    simp [hobs, haddr, i2c_scan_bus, hscan, hloop, eventCalls_cons_some cls _ P [] hev,
      eventCalls_nil, OnI2CTransactionEnd]
  · intro s e
    exact event_not_mem_matchCalls _ _ _ _ _

/-- C2 at the concrete bus 0x10/0x20/0x30: `start(0x20, send)`. -/
theorem C2_start_selects_peripheral_witness :
    ∃ m', i2c_start_transfer demoCls dev20.address false demoMachine = some (0, m')
      ∧ m'.bus.current_devs = [dev20] ∧ m'.bus.broadcast = false
      ∧ m'.trace = demoMachine.trace ++ matchCalls dev20.address false ([dev10] ++ [dev20])
          ++ [Call.event dev20
            (if false = true then i2c_event.I2C_START_RECV else i2c_event.I2C_START_SEND)]
      ∧ ∀ s e, Call.event s e ∉ matchCalls dev20.address false ([dev10] ++ [dev20]) :=
  C2_start_selects_peripheral demoCls demoMachine demoObserved [dev10] dev20 [dev30] false
    (fun _ d e => if d.address = 0x10 ∧ e = i2c_event.I2C_START_RECV then 1 else 0)
    (by decide) (by decide) demo_observed (by decide) (by intro c _; rfl) (by decide)
    (by decide) (by rfl) (by decide)

set_option maxRecDepth 8000 in
/-- C3 fails as stated: on the idle concrete bus with no peripheral attached and no
injection pending, a broadcast start returns 1, not 0 (and leaves the broadcast flag set
on the still idle bus). -/
theorem C3_broadcast_nobody_home :
    demoNoKids.bus.current_devs = [] ∧ demoNoKids.bus.broadcast = false
      ∧ (OnI2CTransactionStart (busname demoNoKids.bus) false demoNoKids).map Prod.snd
          = some false
      ∧ (i2c_start_transfer demoCls I2C_BROADCAST false demoNoKids).map
          (fun r => (r.1, r.2.bus.current_devs, r.2.bus.broadcast)) = some (1, [], true) := by
  decide

/-- C3, amended: on an idle bus with no injection pending on which every attached
peripheral either accepts the broadcast match (`acc`) or declines it, and at least one
accepts, a broadcast start returns 0 whatever the event handlers return; after it the
broadcast flag is set, the matched list holds exactly the accepting peripherals (most
recently scanned first), and each of them that has an event handler received the start
event, in matched-list order. -/
theorem C3_broadcast_start (cls : I2CSlave → I2CSlaveClass) (m m0 : Machine)
    (acc : I2CSlave → Bool) (is_recv : Bool)
    (hidle : m.bus.current_devs = [])
    (hobs : OnI2CTransactionStart (busname m.bus) false m = some (m0, false))
    (hacc : ∀ c ∈ m.bus.children, ∀ h l, (cls c).match_and_add h c I2C_BROADCAST true l
      = if acc c = true then (true, c :: l) else (false, l))
    (hsome : ∃ c ∈ m.bus.children, acc c = true) :
    ∃ m', i2c_start_transfer cls I2C_BROADCAST is_recv m = some (0, m')
      ∧ m'.bus.broadcast = true
      ∧ m'.bus.current_devs = (m.bus.children.filter acc).reverse
      ∧ (∀ c ∈ m.bus.children, acc c = true → c ∈ m'.bus.current_devs)
      ∧ m'.trace = m.trace ++ matchCalls I2C_BROADCAST true m.bus.children
          ++ eventCalls cls
            (if is_recv = true then i2c_event.I2C_START_RECV else i2c_event.I2C_START_SEND)
            (m.bus.children.filter acc).reverse := by
  obtain ⟨hbus, htr⟩ := OnI2CTransactionStart_frame hobs
  have hscan := scan_loop_broadcast cls I2C_BROADCAST acc m.bus.children [] m.trace hacc
  rcases m with ⟨⟨kids, cd, bc, sa, ser, hs⟩, tr, v, infl, injf, gser⟩
  rcases m0 with ⟨bus0, tr0, v0, infl0, injf0, gser0⟩
  simp only at hidle hbus htr hscan
  subst hidle hbus htr
  have hloop := start_loop_pass cls (busname ⟨kids, [], bc, sa, ser, hs⟩)
    (startEvent is_recv) true (kids.filter acc).reverse
    ⟨⟨kids, (kids.filter acc).reverse, true, sa, ser, hs⟩,
      tr0 ++ matchCalls I2C_BROADCAST true kids, v0, infl0, injf0, gser0⟩
    (Or.inl rfl)
  refine ⟨⟨⟨kids, (kids.filter acc).reverse, true, sa, ser, hs⟩,
    tr0 ++ matchCalls I2C_BROADCAST true kids
      ++ eventCalls cls (startEvent is_recv) (kids.filter acc).reverse,
    v0, [], false, gser0⟩, ?_, rfl, rfl, ?_, rfl⟩
  · rw [i2c_start_transfer_eq]
    unfold i2c_do_start_transfer
    simp only [List.append_nil] at hscan
    simp [hobs, i2c_scan_bus, hscan, hloop, OnI2CTransactionEnd]
    simpa using hsome
  · intro c hc ha
    simp [List.mem_filter, hc, ha]

/-- C3 amended, at the concrete bus 0x10/0x20/0x30 with the default match predicate: all
three peripherals accept the broadcast. -/
theorem C3_broadcast_start_witness :
    ∃ m', i2c_start_transfer demoCls I2C_BROADCAST true demoMachine = some (0, m')
      ∧ m'.bus.broadcast = true
      ∧ m'.bus.current_devs = (demoMachine.bus.children.filter (fun _ => true)).reverse
      ∧ (∀ c ∈ demoMachine.bus.children, (fun _ => true) c = true → c ∈ m'.bus.current_devs)
      ∧ m'.trace = demoMachine.trace ++ matchCalls I2C_BROADCAST true demoMachine.bus.children
          ++ eventCalls demoCls
            (if true = true then i2c_event.I2C_START_RECV else i2c_event.I2C_START_SEND)
            (demoMachine.bus.children.filter (fun _ => true)).reverse :=
  C3_broadcast_start demoCls demoMachine demoObserved (fun _ => true) true
    (by decide) demo_observed
    (by intro c _ h l; simp [demoCls, i2c_slave_class_init, i2c_slave_match])
    ⟨dev10, by decide, rfl⟩

/-- C4: on an idle bus with no injection pending, when the fresh scan of a non-broadcast
start matched the peripherals `pre ++ s :: post` and `s` is the first of them whose
handler refuses the start event, `i2c_start_transfer` returns the non-zero value that
handler returned and has ended the transaction itself: the matched list is empty, the
broadcast flag clear, and after the start events the finish event went to every matched
peripheral that has a handler. -/
theorem C4_fresh_start_rejected (cls : I2CSlave → I2CSlaveClass) (m m0 : Machine)
    (address : Nat) (is_recv : Bool) (pre : List I2CSlave) (s : I2CSlave)
    (post : List I2CSlave) (f : History → I2CSlave → i2c_event → Int) (tr1 : History)
    (b : Bool)
    (hidle : m.bus.current_devs = []) (hb : m.bus.broadcast = false)
    (hobs : OnI2CTransactionStart (busname m.bus) false m = some (m0, false))
    (haddr : address ≠ I2C_BROADCAST)
    (hscan : i2c_scan_bus cls m.bus address false [] m.trace = (b, pre ++ s :: post, tr1))
    (hpre : AllAccept cls (startEvent is_recv) tr1 pre)
    (hs : (cls s).event = some f)
    (hrv : f (tr1 ++ eventCalls cls (startEvent is_recv) pre) s (startEvent is_recv) ≠ 0) :
    ∃ m', i2c_start_transfer cls address is_recv m
        = some (f (tr1 ++ eventCalls cls (startEvent is_recv) pre) s (startEvent is_recv), m')
      ∧ m'.bus.current_devs = [] ∧ m'.bus.broadcast = false
      ∧ m'.trace = tr1 ++ eventCalls cls (startEvent is_recv) pre
          ++ [Call.event s (startEvent is_recv)]
          ++ eventCalls cls i2c_event.I2C_FINISH (pre ++ s :: post) := by
  obtain ⟨hbus, htr⟩ := OnI2CTransactionStart_frame hobs
  rcases m with ⟨⟨kids, cd, bc, sa, ser, hs1⟩, tr, v, infl, injf, gser⟩
  rcases m0 with ⟨bus0, tr0, v0, infl0, injf0, gser0⟩
  simp only at hidle hb hbus htr hscan
  subst hidle hb hbus htr
  have hloop := start_loop_fail cls (busname ⟨kids, [], false, sa, ser, hs1⟩)
    (startEvent is_recv) true pre s post
    ⟨⟨kids, pre ++ s :: post, false, sa, ser, hs1⟩, tr1, v0, infl0, injf0, gser0⟩
    f rfl hpre hs hrv
  refine ⟨⟨⟨kids, [], false, sa, ser, hs1⟩,
    tr1 ++ eventCalls cls (startEvent is_recv) pre ++ [Call.event s (startEvent is_recv)]
      ++ eventCalls cls i2c_event.I2C_FINISH (pre ++ s :: post),
    v0, [], false, gser0⟩, ?_, rfl, rfl, rfl⟩
  rw [i2c_start_transfer_eq]
  unfold i2c_do_start_transfer
  simp [hobs, haddr, hscan, hloop, OnI2CTransactionEnd, i2c_end_transfer, deliver_eq]

/-- C4 at the concrete bus: `start(0x10, receive)`, which the peripheral at 0x10 refuses. -/
theorem C4_fresh_start_rejected_witness :
    ∃ m', i2c_start_transfer demoCls 0x10 true demoMachine
        = some ((fun (_ : History) (d : I2CSlave) (e : i2c_event) =>
            if d.address = 0x10 ∧ e = i2c_event.I2C_START_RECV then (1 : Int) else 0)
          ([Call.match_and_add dev10 0x10 false] ++ eventCalls demoCls (startEvent true) [])
          dev10 (startEvent true), m')
      ∧ m'.bus.current_devs = [] ∧ m'.bus.broadcast = false
      ∧ m'.trace = [Call.match_and_add dev10 0x10 false]
          ++ eventCalls demoCls (startEvent true) []
          ++ [Call.event dev10 (startEvent true)]
          ++ eventCalls demoCls i2c_event.I2C_FINISH ([] ++ dev10 :: []) :=
  C4_fresh_start_rejected demoCls demoMachine demoObserved 0x10 true [] dev10 []
    (fun _ d e => if d.address = 0x10 ∧ e = i2c_event.I2C_START_RECV then 1 else 0)
    [Call.match_and_add dev10 0x10 false] true
    (by decide) (by decide) demo_observed (by decide) (by decide)
    (by intro p1 p p2 f hd; simp at hd) (by rfl) (by decide)

/-- C5: on a bus that is mid-transaction (matched list `pre ++ s :: post`, not
broadcasting) with no injection pending, when a start with a non-broadcast address
reaches `s` as the first matched peripheral whose handler refuses the start event,
`i2c_start_transfer` returns the non-zero value that handler returned and leaves the
transaction open: the bus (matched list and broadcast flag included) is as before, and
the only callbacks made are the start events, none of them a finish event. -/
theorem C5_restart_rejected (cls : I2CSlave → I2CSlaveClass) (m m0 : Machine)
    (address : Nat) (is_recv : Bool) (pre : List I2CSlave) (s : I2CSlave)
    (post : List I2CSlave) (f : History → I2CSlave → i2c_event → Int)
    (hdevs : m.bus.current_devs = pre ++ s :: post) (hb : m.bus.broadcast = false)
    (hobs : OnI2CTransactionStart (busname m.bus) false m = some (m0, false))
    (haddr : address ≠ I2C_BROADCAST)
    (hpre : AllAccept cls (startEvent is_recv) m.trace pre)
    (hs : (cls s).event = some f)
    (hrv : f (m.trace ++ eventCalls cls (startEvent is_recv) pre) s (startEvent is_recv) ≠ 0) :
    ∃ m', i2c_start_transfer cls address is_recv m
        = some (f (m.trace ++ eventCalls cls (startEvent is_recv) pre) s (startEvent is_recv),
            m')
      ∧ m'.bus = m.bus
      ∧ m'.trace = m.trace ++ (eventCalls cls (startEvent is_recv) pre
          ++ [Call.event s (startEvent is_recv)])
      ∧ ∀ d, Call.event d i2c_event.I2C_FINISH ∉
          eventCalls cls (startEvent is_recv) pre ++ [Call.event s (startEvent is_recv)] := by
  obtain ⟨hbus, htr⟩ := OnI2CTransactionStart_frame hobs
  rcases m with ⟨⟨kids, cd, bc, sa, ser, hs1⟩, tr, v, infl, injf, gser⟩
  rcases m0 with ⟨bus0, tr0, v0, infl0, injf0, gser0⟩
  simp only at hdevs hb hbus htr hpre hrv
  subst hdevs hb hbus htr
  have hloop := start_loop_fail cls (busname ⟨kids, pre ++ s :: post, false, sa, ser, hs1⟩)
    (startEvent is_recv) false pre s post
    ⟨⟨kids, pre ++ s :: post, false, sa, ser, hs1⟩, tr0, v0, infl0, injf0, gser0⟩
    f rfl hpre hs hrv
  refine ⟨⟨⟨kids, pre ++ s :: post, false, sa, ser, hs1⟩,
    tr0 ++ (eventCalls cls (startEvent is_recv) pre ++ [Call.event s (startEvent is_recv)]),
    v0, [], false, gser0⟩, ?_, rfl, rfl, ?_⟩
  · rw [i2c_start_transfer_eq]
    unfold i2c_do_start_transfer
    have hemp : (pre ++ s :: post).isEmpty = false := by cases pre <;> rfl
    simp [hobs, haddr, hemp, hloop, OnI2CTransactionEnd]
  · intro d hd
    rcases List.mem_append.1 hd with h | h
    · obtain ⟨x, _, hx⟩ := mem_eventCalls h
      simp only [Call.event.injEq] at hx
      exact startEvent_ne_finish is_recv hx.2.symm
    · simp only [List.mem_singleton, Call.event.injEq] at h
      exact startEvent_ne_finish is_recv h.2.symm

/-- C5 at the concrete bus: with the transaction on 0x10 open after `start(0x10, send)`,
`start(0x10, receive)` is refused by the peripheral and the transaction stays open. -/
theorem C5_restart_rejected_witness :
    ∃ m', i2c_start_transfer demoCls 0x10 true demoOpen10
        = some ((fun (_ : History) (d : I2CSlave) (e : i2c_event) =>
            if d.address = 0x10 ∧ e = i2c_event.I2C_START_RECV then (1 : Int) else 0)
          (demoOpen10.trace ++ eventCalls demoCls (startEvent true) []) dev10
          (startEvent true), m')
      ∧ m'.bus = demoOpen10.bus
      ∧ m'.trace = demoOpen10.trace ++ (eventCalls demoCls (startEvent true) []
          ++ [Call.event dev10 (startEvent true)])
      ∧ ∀ d, Call.event d i2c_event.I2C_FINISH ∉
          eventCalls demoCls (startEvent true) [] ++ [Call.event dev10 (startEvent true)] :=
  C5_restart_rejected demoCls demoOpen10 demoOpen10Observed 0x10 true [] dev10 []
    (fun _ d e => if d.address = 0x10 ∧ e = i2c_event.I2C_START_RECV then 1 else 0)
    (by decide) (by decide) demo_open_observed (by decide)
    (by intro p1 p p2 f hd; simp at hd) (by rfl) (by decide)

/-- C6: on a bus whose matched list is not empty, `i2c_start_transfer` (any address,
either direction, injection pending or not) queries no match predicate and leaves the
matched list, members and order, as it was, whatever it returns.  Consequently, when
that bus state `m1` was reached by a successful start from an idle bus `m` selecting the
peripheral `P` (default match predicate, pairwise distinct addresses), the match
predicate of `P` is queried exactly once over the two starts together. -/
theorem C6_open_bus_not_rescanned (cls : I2CSlave → I2CSlaveClass) (m1 m0 : Machine)
    (address : Nat) (is_recv inj : Bool)
    (hne : m1.bus.current_devs ≠ [])
    (hobs : OnI2CTransactionStart (busname m1.bus) false m1 = some (m0, inj)) :
    ∃ rv m2 calls, i2c_start_transfer cls address is_recv m1 = some (rv, m2)
      ∧ m2.bus.current_devs = m1.bus.current_devs
      ∧ m2.trace = m1.trace ++ calls
      ∧ (∀ c a b, Call.match_and_add c a b ∉ calls)
      ∧ ∀ (m mo : Machine) (pre : List I2CSlave) (P : I2CSlave) (post : List I2CSlave)
          (dirA : Bool),
          m.bus.current_devs = [] → m.bus.broadcast = false →
          OnI2CTransactionStart (busname m.bus) false m = some (mo, false) →
          m.bus.children = pre ++ P :: post →
          (∀ c ∈ m.bus.children, (cls c).match_and_add = fun _ => i2c_slave_match) →
          m.bus.children.Pairwise (fun a b => a.address ≠ b.address) →
          P.address ≠ I2C_BROADCAST →
          i2c_start_transfer cls P.address dirA m = some (0, m1) →
          (m2.trace.drop m.trace.length).countP (isMatchOf P) = 1 := by
  obtain ⟨rv, m2, calls, h1, h2, h3, h4⟩ :=
    start_open_frame cls m1 m0 address (startEvent is_recv) inj hne hobs
  refine ⟨rv, m2, calls, by rw [i2c_start_transfer_eq]; exact h1, h2, h3, ?_, ?_⟩
  · intro c a b hc
    have := h4 _ hc
    simp [isEvent] at this
  · intro m mo pre P post dirA hidle hb hobs1 hkids hdef hdistinct haddr hfirst
    have hno : ∀ c ∈ pre, c.address ≠ P.address := by
      rw [hkids, List.pairwise_append] at hdistinct
      intro c hc
      exact hdistinct.2.2 c hc P (List.mem_cons_self _ _)
    rw [i2c_start_transfer_eq] at hfirst
    obtain ⟨calls1, ht1, he1⟩ := start_idle_trace cls m mo m1 pre P post (startEvent dirA) 0
      hidle hb hobs1 hkids hdef hno haddr hfirst
    have hpre : ∀ c ∈ pre, c ≠ P := by
      intro c hc hcp
      exact hno c hc (by rw [hcp])
    rw [h3, ht1]
    simp only [List.append_assoc, List.drop_left]
    simp only [matchCalls, List.map_append, List.countP_append, List.map_cons, List.map_nil]
    have hc0 := countP_isMatchOf_others P P.address false pre hpre
    simp only [matchCalls] at hc0
    rw [hc0, countP_isMatchOf_events P calls1 he1, countP_isMatchOf_events P calls h4]
    simp [List.countP_cons, isMatchOf]

/-- C6 at the concrete bus: `start(0x10, send)` from idle, then `start(0x10, receive)`
with no end in between. -/
theorem C6_open_bus_not_rescanned_witness :
    ∃ rv m2 calls, i2c_start_transfer demoCls 0x10 true demoOpen10 = some (rv, m2)
      ∧ m2.bus.current_devs = demoOpen10.bus.current_devs
      ∧ m2.trace = demoOpen10.trace ++ calls
      ∧ (∀ c a b, Call.match_and_add c a b ∉ calls)
      ∧ (m2.trace.drop demoMachine.trace.length).countP (isMatchOf dev10) = 1 := by
  obtain ⟨rv, m2, calls, h1, h2, h3, h4, h5⟩ :=
    C6_open_bus_not_rescanned demoCls demoOpen10 demoOpen10Observed 0x10 true false
      (by decide) demo_open_observed
  exact ⟨rv, m2, calls, h1, h2, h3, h4,
    h5 demoMachine demoObserved [] dev10 [dev20, dev30] false (by decide) (by decide)
      demo_observed (by decide) (by intro c _; rfl) (by decide) (by decide)
      demo_open_reached⟩

/-- C8 fails as stated: on the concrete bus with the broadcast transaction open (matched
list 0x30, 0x20, 0x10), sending 0xEE reaches 0x30, then 0x20, which refuses it; the send
operation of the peripheral at 0x10, which has the capability, is never invoked. -/
theorem C8_send_skips_after_failure :
    demoBroadcast.bus.current_devs = [dev30, dev20, dev10]
      ∧ (demoCls dev10).send.isSome = true
      ∧ (i2c_send demoCls 0xEE demoBroadcast).2.trace
          = demoBroadcast.trace ++ [Call.send dev30 0xEE, Call.send dev20 0xEE]
      ∧ Call.send dev10 0xEE ∉ (i2c_send demoCls 0xEE demoBroadcast).2.trace := by
  decide

/-- C8, amended: `i2c_send` invokes the send operation once each, in matched-list order
and with the given byte, on the peripherals up to and including the first one whose send
reports failure, stopping short of the first one that lacks the capability; no
peripheral after the first refusal is invoked.  Here `pre` are the leading peripherals
that all take the byte and the head of `rest`, if any, is the first that refuses.  The
bus is left as it was. -/
theorem C8_send_delivery (cls : I2CSlave → I2CSlaveClass) (m : Machine) (data : Nat)
    (pre rest : List I2CSlave)
    (hdevs : m.bus.current_devs = pre ++ rest)
    (hpre : AllTake cls data m.trace pre)
    (hrest : ∀ s post, rest = s :: post →
      Refuses cls data (m.trace ++ sendCalls data pre) s) :
    (i2c_send cls data m).2.trace
        = m.trace ++ sendCalls data pre
          ++ sendCalls data ((rest.take 1).filter (fun s => (cls s).send.isSome))
      ∧ (i2c_send cls data m).2.bus = m.bus := by
  have h := (send_loop_eq cls data pre rest m.trace hpre hrest).1
  unfold i2c_send
  simp only [hdevs]
  exact ⟨h, trivial⟩

/-- C8 amended, at the concrete bus with the broadcast transaction open: byte 0xEE is
taken by 0x30 and refused by 0x20. -/
theorem C8_send_delivery_witness :
    (i2c_send demoCls 0xEE demoBroadcast).2.trace
        = demoBroadcast.trace ++ sendCalls 0xEE [dev30]
          ++ sendCalls 0xEE ((([dev20, dev10] : List I2CSlave).take 1).filter
              (fun s => (demoCls s).send.isSome))
      ∧ (i2c_send demoCls 0xEE demoBroadcast).2.bus = demoBroadcast.bus :=
  C8_send_delivery demoCls demoBroadcast 0xEE [dev30] [dev20, dev10] (by decide)
    (AllTake_cons (f := fun _ d data => if d.address = 0x20 ∧ data = 0xEE then 1 else 0)
      rfl (by decide) (AllTake_nil _ _ _))
    (by
      intro s post h
      simp only [List.cons.injEq] at h
      obtain ⟨rfl, _⟩ := h
      exact Or.inr ⟨fun _ d data => if d.address = 0x20 ∧ data = 0xEE then 1 else 0, rfl,
        by decide⟩)

/-- C9 fails as stated: on the idle concrete bus (matched list empty) `i2c_send`
returns 0, not -1. -/
theorem C9_send_on_idle_bus_succeeds :
    demoMachine.bus.current_devs = [] ∧ (i2c_send demoCls 0xAB demoMachine).1 = 0 := by
  decide

/-- C9, amended: `i2c_send` returns -1 if some matched peripheral lacks the send
capability or its send reports failure, and 0 otherwise, that is when every matched
peripheral has the capability and reported success, which includes the case of an empty
matched list; it never returns another value.  Here `pre` are the leading peripherals
that all take the byte and the head of `rest`, if any, is the first that refuses. -/
theorem C9_send_result (cls : I2CSlave → I2CSlaveClass) (m : Machine) (data : Nat)
    (pre rest : List I2CSlave)
    (hdevs : m.bus.current_devs = pre ++ rest)
    (hpre : AllTake cls data m.trace pre)
    (hrest : ∀ s post, rest = s :: post →
      Refuses cls data (m.trace ++ sendCalls data pre) s) :
    (i2c_send cls data m).1 = (if rest = [] then 0 else -1)
      ∧ (m.bus.current_devs = [] → (i2c_send cls data m).1 = 0)
      ∧ ((i2c_send cls data m).1 = 0 ∨ (i2c_send cls data m).1 = -1) := by
  have h := (send_loop_eq cls data pre rest m.trace hpre hrest).2
  have h1 : (i2c_send cls data m).1 = (if rest = [] then 0 else -1) := by
    unfold i2c_send
    simp only [hdevs]
    by_cases hr : rest = []
    · have h0 := h.2 hr
      rw [if_pos hr, if_neg (not_not.2 h0)]
    · have hne : (i2c_send_loop cls data (pre ++ rest) 0 m.trace).1 ≠ 0 :=
        fun h0 => hr (h.1 h0)
      rw [if_neg hr, if_pos hne]
  refine ⟨h1, ?_, ?_⟩
  · intro he
    rw [hdevs] at he
    have hr : rest = [] := (List.append_eq_nil.1 he).2
    rw [h1, if_pos hr]
  · rw [h1]
    by_cases hr : rest = []
    · exact Or.inl (by simp [hr])
    · exact Or.inr (by simp [hr])

/-- C9 amended, at the concrete bus with the broadcast transaction open: byte 0xEE is
taken by 0x30 and refused by 0x20, and the result is -1. -/
theorem C9_send_result_witness :
    (i2c_send demoCls 0xEE demoBroadcast).1
        = (if ([dev20, dev10] : List I2CSlave) = [] then 0 else -1)
      ∧ (demoBroadcast.bus.current_devs = [] → (i2c_send demoCls 0xEE demoBroadcast).1 = 0)
      ∧ ((i2c_send demoCls 0xEE demoBroadcast).1 = 0
          ∨ (i2c_send demoCls 0xEE demoBroadcast).1 = -1) :=
  C9_send_result demoCls demoBroadcast 0xEE [dev30] [dev20, dev10] (by decide)
    (AllTake_cons (f := fun _ d data => if d.address = 0x20 ∧ data = 0xEE then 1 else 0)
      rfl (by decide) (AllTake_nil _ _ _))
    (by
      intro s post h
      simp only [List.cons.injEq] at h
      obtain ⟨rfl, _⟩ := h
      exact Or.inr ⟨fun _ d data => if d.address = 0x20 ∧ data = 0xEE then 1 else 0, rfl,
        by decide⟩)

/-- C10: `i2c_recv` returns 0xFF and makes no callback when the matched list is empty or
the bus is broadcasting; otherwise, when the head of the matched list has the receive
capability, the only callback is the receive of that head and the result is the byte it
produced; in every case the bus (matched list and broadcast flag) is left as it was. -/
theorem C10_recv (cls : I2CSlave → I2CSlaveClass) (m : Machine) :
    ((m.bus.current_devs = [] ∨ m.bus.broadcast = true) → i2c_recv cls m = (0xff, m))
      ∧ (∀ s rest f, m.bus.current_devs = s :: rest → m.bus.broadcast = false →
          (cls s).recv = some f →
          i2c_recv cls m
            = (f m.trace s % 256, { m with trace := m.trace ++ [Call.recv s] }))
      ∧ (i2c_recv cls m).2.bus = m.bus := by
  refine ⟨?_, ?_, ?_⟩
  · intro h
    unfold i2c_recv
    rcases h with h | h
    · simp [h]
    · cases hd : m.bus.current_devs <;> simp [h]
  · intro s rest f hd hb hf
    unfold i2c_recv
    simp [hd, hb, hf]
  · unfold i2c_recv
    cases hd : m.bus.current_devs with
    | nil => rfl
    | cons s rest =>
      cases hb : m.bus.broadcast with
      | true => simp
      | false =>
        cases hf : (cls s).recv <;> simp [hf]

/-- C10 at the concrete bus: with the transaction on 0x10 open the receive yields 0x11,
the byte the peripheral at 0x10 produces; with the broadcast transaction open it
yields 0xFF and makes no callback. -/
theorem C10_recv_witness :
    i2c_recv demoCls demoOpen10
        = (0x11, { demoOpen10 with trace := demoOpen10.trace ++ [Call.recv dev10] })
      ∧ i2c_recv demoCls demoBroadcast = (0xff, demoBroadcast) :=
  ⟨(C10_recv demoCls demoOpen10).2.1 dev10 [] (fun _ d => d.address + 1) rfl rfl rfl,
    (C10_recv demoCls demoBroadcast).1 (Or.inr rfl)⟩

/-- C11: in every bus state `i2c_end_transfer` delivers the finish event once, in
matched-list order, to each matched peripheral that has an event handler, whatever the
handlers return, and leaves the matched list empty and the broadcast flag clear; a
second `i2c_end_transfer` right after makes no callback and changes nothing. -/
theorem C11_end_transfer (cls : I2CSlave → I2CSlaveClass) (m : Machine) :
    (i2c_end_transfer cls m).trace
        = m.trace ++ eventCalls cls i2c_event.I2C_FINISH m.bus.current_devs
      ∧ (i2c_end_transfer cls m).bus.current_devs = []
      ∧ (i2c_end_transfer cls m).bus.broadcast = false
      ∧ i2c_end_transfer cls (i2c_end_transfer cls m) = i2c_end_transfer cls m := by
  refine ⟨?_, rfl, rfl, ?_⟩
  · simp [i2c_end_transfer, deliver_eq]
  · simp [i2c_end_transfer, deliver]

/-- C12: in every bus state `i2c_nack` delivers the nack event once, in matched-list
order, to each matched peripheral that has an event handler and leaves the bus (matched
list and broadcast flag included) as it was; on an empty matched list it makes no
callback and changes nothing at all. -/
theorem C12_nack (cls : I2CSlave → I2CSlaveClass) (m : Machine) :
    (i2c_nack cls m).trace
        = m.trace ++ eventCalls cls i2c_event.I2C_NACK m.bus.current_devs
      ∧ (i2c_nack cls m).bus = m.bus
      ∧ (m.bus.current_devs = [] → i2c_nack cls m = m) := by
  refine ⟨i2c_nack_trace cls m, i2c_nack_bus cls m, ?_⟩
  intro h
  simp [i2c_nack, h]

/-- C12 at the concrete bus: a nack during the open broadcast transaction reaches all
three peripherals and leaves the bus as it is; on the idle bus it does nothing. -/
theorem C12_nack_witness :
    (i2c_nack demoCls demoBroadcast).trace
        = demoBroadcast.trace ++ [Call.event dev30 i2c_event.I2C_NACK,
            Call.event dev20 i2c_event.I2C_NACK, Call.event dev10 i2c_event.I2C_NACK]
      ∧ i2c_nack demoCls demoMachine = demoMachine :=
  ⟨(C12_nack demoCls demoBroadcast).1, (C12_nack demoCls demoMachine).2.2 rfl⟩

/-- C14: `i2c_bus_pre_save` returns 0 and changes nothing but `saved_address`, which it
sets to 0xFF (the 8-bit form of -1) when the matched list is empty, to the broadcast
address 0x00 when the matched list is not empty and the bus is broadcasting, and to the
address of the head of the matched list otherwise. -/
theorem C14_pre_save (bus : I2CBus) :
    (i2c_bus_pre_save bus).1 = 0
      ∧ (i2c_bus_pre_save bus).2.current_devs = bus.current_devs
      ∧ (i2c_bus_pre_save bus).2.broadcast = bus.broadcast
      ∧ (i2c_bus_pre_save bus).2.children = bus.children
      ∧ (bus.current_devs = [] → (i2c_bus_pre_save bus).2.saved_address = 0xFF)
      ∧ (bus.current_devs ≠ [] → bus.broadcast = true →
          (i2c_bus_pre_save bus).2.saved_address = I2C_BROADCAST)
      ∧ (∀ s rest, bus.current_devs = s :: rest → bus.broadcast = false →
          (i2c_bus_pre_save bus).2.saved_address = s.address) := by
  unfold i2c_bus_pre_save
  cases hd : bus.current_devs with
  | nil => simp [toUInt8]
  | cons s rest =>
    cases hb : bus.broadcast <;> simp [hd]

/-- C14 at the concrete bus: idle gives 0xFF, the open transaction on 0x10 gives 0x10,
the open broadcast transaction gives 0x00. -/
theorem C14_pre_save_witness :
    (i2c_bus_pre_save demoMachine.bus).2.saved_address = 0xFF
      ∧ (i2c_bus_pre_save demoOpen10.bus).2.saved_address = dev10.address
      ∧ (i2c_bus_pre_save demoBroadcast.bus).2.saved_address = I2C_BROADCAST :=
  ⟨(C14_pre_save demoMachine.bus).2.2.2.2.1 rfl,
    (C14_pre_save demoOpen10.bus).2.2.2.2.2.2 dev10 [] rfl rfl,
    (C14_pre_save demoBroadcast.bus).2.2.2.2.2.1 (by decide) rfl⟩

/-- C16: a fresh scan puts every match at the front of the matched list.  On an idle
bus whose attached peripherals use the default match predicate, after a broadcast start
(injection pending or not) the matched list is the attached peripherals in reverse scan
order, so its head is the peripheral scanned last. -/
theorem C16_scan_is_lifo (cls : I2CSlave → I2CSlaveClass) (m m0 : Machine)
    (is_recv inj : Bool)
    (hidle : m.bus.current_devs = [])
    (hobs : OnI2CTransactionStart (busname m.bus) false m = some (m0, inj))
    (hdef : ∀ c ∈ m.bus.children, (cls c).match_and_add = fun _ => i2c_slave_match) :
    ∃ rv m', i2c_start_transfer cls I2C_BROADCAST is_recv m = some (rv, m')
      ∧ m'.bus.current_devs = m.bus.children.reverse
      ∧ m'.bus.current_devs.head? = m.bus.children.getLast? := by
  obtain ⟨rv, m', calls, h1, _, _, h4, _⟩ :=
    start_broadcast_frame cls m m0 I2C_BROADCAST (startEvent is_recv) inj hobs (Or.inl rfl)
  have hscan := scan_loop_broadcast cls I2C_BROADCAST (fun _ => true) m.bus.children []
    m.trace (by
      intro c hc h l
      simp [hdef c hc, i2c_slave_match])
  have hd : m'.bus.current_devs = m.bus.children.reverse := by
    rw [h4, hidle]
    simp [i2c_scan_bus, hscan]
  exact ⟨rv, m', by rw [i2c_start_transfer_eq]; exact h1, hd, by rw [hd, List.head?_reverse]⟩

/-- C16 at the concrete bus: after the broadcast start the matched list is 0x30, 0x20,
0x10. -/
theorem C16_scan_is_lifo_witness :
    ∃ rv m', i2c_start_transfer demoCls I2C_BROADCAST false demoMachine = some (rv, m')
      ∧ m'.bus.current_devs = demoMachine.bus.children.reverse
      ∧ m'.bus.current_devs.head? = demoMachine.bus.children.getLast? :=
  C16_scan_is_lifo demoCls demoMachine demoObserved false false (by decide) demo_observed
    (by intro c _; rfl)

/-- C17: on a bus with a non-empty matched list and the broadcast flag clear, a start
with the broadcast address returns 0, sets the broadcast flag and does not rescan (no
match query, matched list unchanged).  After any further operations other than
`i2c_end_transfer` the bus is still broadcasting with the same matched list: every
`i2c_recv` returns 0xFF and makes no callback, and every start (observer call defined)
returns 0 whatever the event handlers return. -/
theorem C17_switch_to_broadcast (cls : I2CSlave → I2CSlaveClass) (m m0 : Machine)
    (is_recv inj : Bool)
    (hne : m.bus.current_devs ≠ []) (hb : m.bus.broadcast = false)
    (hobs : OnI2CTransactionStart (busname m.bus) false m = some (m0, inj)) :
    ∃ m', i2c_start_transfer cls I2C_BROADCAST is_recv m = some (0, m')
      ∧ m.bus.broadcast = false ∧ m'.bus.broadcast = true
      ∧ m'.bus.current_devs = m.bus.current_devs
      ∧ (∀ c a b, Call.match_and_add c a b ∉ m'.trace.drop m.trace.length)
      ∧ ∀ ops M, Op.end_transfer ∉ ops → run cls ops m' = some M →
          M.bus.broadcast = true ∧ M.bus.current_devs = m.bus.current_devs
          ∧ i2c_recv cls M = (0xff, M)
          ∧ ∀ a r M0 i, OnI2CTransactionStart (busname M.bus) false M = some (M0, i) →
              ∃ M', i2c_start_transfer cls a r M = some (0, M') := by
  have hemp : m.bus.current_devs.isEmpty = false := by
    cases hd : m.bus.current_devs with
    | nil => exact absurd hd hne
    | cons a l => rfl
  obtain ⟨rv, m', calls, h1, h2, _, h4, h5, h6, h7⟩ :=
    start_broadcast_frame cls m m0 I2C_BROADCAST (startEvent is_recv) inj hobs (Or.inl rfl)
  rw [hemp] at h4
  have hd : m'.bus.current_devs = m.bus.current_devs := by simpa using h4
  have hrv : rv = 0 := h5 (by rw [hd]; exact hne)
  subst hrv
  refine ⟨m', by rw [i2c_start_transfer_eq]; exact h1, hb, h2, hd, ?_, ?_⟩
  · intro c a b hmem
    rw [h6, List.drop_left] at hmem
    have := h7 hne _ hmem
    simp [isEvent] at this
  · intro ops M hops hrun
    obtain ⟨hMb, hMd⟩ := run_keeps_broadcast cls ops m' M hops h2 (by rw [hd]; exact hne) hrun
    refine ⟨hMb, by rw [hMd, hd], ?_, ?_⟩
    · unfold i2c_recv
      cases hl : M.bus.current_devs <;> simp [hMb]
    · intro a r M0 i hobsM
      obtain ⟨rv1, M', _, g1, _, _, g4, g5, _, _⟩ :=
        start_broadcast_frame cls M M0 a (startEvent r) i hobsM (Or.inr hMb)
      have hMne : M.bus.current_devs ≠ [] := by rw [hMd, hd]; exact hne
      have hMemp : M.bus.current_devs.isEmpty = false := by
        cases hl : M.bus.current_devs with
        | nil => exact absurd hl hMne
        | cons a l => rfl
      rw [hMemp] at g4
      have hM'd : M'.bus.current_devs = M.bus.current_devs := by simpa using g4
      have hrv1 : rv1 = 0 := g5 (by rw [hM'd]; exact hMne)
      subst hrv1
      exact ⟨M', by rw [i2c_start_transfer_eq]; exact g1⟩

/-- C17 at the concrete bus: with the transaction on 0x10 open, `start(0x00, receive)`
returns 0 although the peripheral at 0x10 rejects a start-for-receive, keeps the matched
list, and a receive then yields 0xFF without a callback. -/
theorem C17_switch_to_broadcast_witness :
    ∃ m', i2c_start_transfer demoCls I2C_BROADCAST true demoOpen10 = some (0, m')
      ∧ m'.bus.broadcast = true
      ∧ m'.bus.current_devs = [dev10]
      ∧ i2c_recv demoCls m' = (0xff, m') := by
  obtain ⟨m', h1, _, h2, h3, _, h5⟩ :=
    C17_switch_to_broadcast demoCls demoOpen10 demoOpen10Observed true false
      (by decide) (by decide) demo_open_observed
  exact ⟨m', h1, h2, h3, (h5 [] m' (by simp) rfl).2.2.1⟩

set_option maxRecDepth 8000 in
/-- C13 fails as stated: on the concrete bus (pairwise distinct addresses, none of them
0x00), `start(0x20, send)` followed by `start(0x00, send)` leaves a mid-transaction bus
whose matched list holds the peripheral at 0x20 alone while the broadcast flag is set;
snapshot and restore of that bus bring back all three peripherals. -/
theorem C13_switched_transaction_restores_all :
    demoMachine.bus.children.Pairwise (fun a b => a.address ≠ b.address)
      ∧ (∀ c ∈ demoMachine.bus.children, c.address ≠ I2C_BROADCAST)
      ∧ (run demoCls [Op.start 0x20 false, Op.start I2C_BROADCAST false] demoMachine).map
          (fun M => (M.bus.current_devs, M.bus.broadcast, (roundTrip M.bus).current_devs))
        = some ([dev20], true, [dev30, dev20, dev10]) := by
  decide

/-- C13, amended: for a bus that is mid-transaction with the matched list a scan for the
transaction produces (a single-address transaction: broadcast flag clear and the matched
list exactly one attached peripheral; a broadcast transaction: broadcast flag set and
the matched list non-empty with the attached peripherals as members), snapshot and
restore reconstruct a matched list with the same members, given that the attached
peripherals have pairwise distinct addresses, none of them the broadcast address. -/
theorem C13_round_trip (bus : I2CBus)
    (hdistinct : bus.children.Pairwise (fun a b => a.address ≠ b.address))
    (hnz : ∀ c ∈ bus.children, c.address ≠ I2C_BROADCAST)
    (hshape : (bus.broadcast = false ∧ ∃ P ∈ bus.children, bus.current_devs = [P])
      ∨ (bus.broadcast = true ∧ bus.current_devs ≠ []
          ∧ ∀ c, c ∈ bus.current_devs ↔ c ∈ bus.children)) :
    ∀ c, c ∈ (roundTrip bus).current_devs ↔ c ∈ bus.current_devs := by
  intro c
  rw [mem_roundTrip]
  rcases hshape with ⟨hb, P, hP, hd⟩ | ⟨hb, hne, hmem⟩
  · have hs : (i2c_bus_pre_save bus).2.saved_address = P.address := by
      unfold i2c_bus_pre_save
      simp [hd, hb]
    rw [hs, hd]
    constructor
    · rintro ⟨hc, h | h⟩
      · by_contra hcp
        have hne : c ≠ P := by simpa using hcp
        have hsymm : Symmetric (fun a b : I2CSlave => a.address ≠ b.address) :=
          fun a b hab => Ne.symm hab
        exact hdistinct.forall hsymm hc hP hne h.symm
      · exact absurd h (hnz P hP)
    · intro hc
      have hcp : c = P := by simpa using hc
      subst hcp
      exact ⟨hP, Or.inl rfl⟩
  · have hs : (i2c_bus_pre_save bus).2.saved_address = I2C_BROADCAST := by
      unfold i2c_bus_pre_save
      cases hd : bus.current_devs with
      | nil => exact absurd hd hne
      | cons s rest => simp [hb]
    rw [hs, hmem c]
    simp

/-- C13 amended, at the concrete bus: the open transaction on 0x10 and the open
broadcast transaction both restore to the same members. -/
theorem C13_round_trip_witness :
    (∀ c, c ∈ (roundTrip demoOpen10.bus).current_devs ↔ c ∈ demoOpen10.bus.current_devs)
      ∧ (∀ c, c ∈ (roundTrip demoBroadcast.bus).current_devs
          ↔ c ∈ demoBroadcast.bus.current_devs) :=
  ⟨C13_round_trip demoOpen10.bus (by decide) (by decide)
      (Or.inl ⟨rfl, dev10, by decide, rfl⟩),
    C13_round_trip demoBroadcast.bus (by decide) (by decide)
      (Or.inr ⟨rfl, by decide, by intro c; simp [demoBroadcast, demoBus]; tauto⟩)⟩

/-- C19 fails as stated: on the idle bus with peripherals at 0x10 and 0xFF (both 8-bit
addresses) the snapshot stores 0xFF for "none", and the restore puts the peripheral at
0xFF into the matched list. -/
theorem C19_idle_snapshot_rejoins_0xFF :
    demoBusFF.current_devs = []
      ∧ (∀ c ∈ demoBusFF.children, c.address < 256)
      ∧ (i2c_bus_pre_save demoBusFF).2.saved_address = 0xFF
      ∧ (roundTrip demoBusFF).current_devs = [devFF] := by
  decide

/-- C19, amended: for every idle bus none of whose attached peripherals has the address
0xFF (so for every assignment of 7-bit addresses), snapshot and restore leave the
matched list empty. -/
theorem C19_idle_round_trip (bus : I2CBus)
    (hidle : bus.current_devs = [])
    (hff : ∀ c ∈ bus.children, c.address ≠ 0xFF) :
    (roundTrip bus).current_devs = [] := by
  have hs : (i2c_bus_pre_save bus).2.saved_address = 0xFF := by
    unfold i2c_bus_pre_save
    simp [hidle, toUInt8]
  rw [List.eq_nil_iff_forall_not_mem]
  intro c hc
  rw [mem_roundTrip, hs] at hc
  rcases hc with ⟨hmem, h | h⟩
  · exact hff c hmem h.symm
  · simp [I2C_BROADCAST] at h

/-- C19 amended, at the idle concrete bus 0x10/0x20/0x30. -/
theorem C19_idle_round_trip_witness : (roundTrip demoBus).current_devs = [] :=
  C19_idle_round_trip demoBus (by decide) (by decide)

set_option maxRecDepth 8000 in
/-- C18 fails on the code: from the idle concrete bus with no peripheral attached, a
broadcast start (which returns 1, nobody responds) leaves the matched list empty with
the broadcast flag set.  With peripherals that do not answer the general call, the flag
left behind makes the next scan a broadcast scan: `start(0x20, send)` succeeds on the
idle bus, and fails right after the failed broadcast start. -/
theorem C18_failed_broadcast_start_keeps_flag :
    demoNoKids.bus.current_devs = [] ∧ demoNoKids.bus.broadcast = false
      ∧ (run demoCls [Op.start I2C_BROADCAST false] demoNoKids).map
          (fun M => (M.bus.current_devs, M.bus.broadcast)) = some ([], true)
      ∧ (i2c_start_transfer strictCls 0x20 false demoMachine).map Prod.fst = some 0
      ∧ (run strictCls [Op.start I2C_BROADCAST false] demoMachine).bind
          (fun M => (i2c_start_transfer strictCls 0x20 false M).map
            (fun r => (M.bus.current_devs, M.bus.broadcast, r.1))) = some ([], true, 1) := by
  decide

/-- C20 fails on the code: after the first registration on a new observer the bus is
recorded at index 1 while `states_` has the single position 0, and the observer call
for that bus indexes `states_` out of range. -/
theorem C20_first_bus_index_out_of_range :
    mapAt "i2c_bus_0" (I2CBusStateView.new.AddI2CBus "i2c_bus_0" 100 0).i2c2idx_ = some 1
      ∧ (I2CBusStateView.new.AddI2CBus "i2c_bus_0" 100 0).states_.length = 1
      ∧ vecGet (I2CBusStateView.new.AddI2CBus "i2c_bus_0" 100 0).states_ 1 = none
      ∧ (I2CBusStateView.new.AddI2CBus "i2c_bus_0" 100 0).OnI2CTransactionStart
          "i2c_bus_0" false = none := by
  decide

end I2C
